import Mathlib

/-!
Verification of the Advent-of-Code leaderboard helpers
(`bot/exts/christmas/advent_of_code/_helpers.py`).

The Python module is shallowly embedded below.  Python `dict`s are modelled
as association lists in insertion order (keys unique by construction, first
match wins on lookup), `defaultdict(list)` appends to the list stored at the
first matching key and appends a fresh key at the end otherwise, and Python's
stable sorts (`sorted`) are modelled as stable insertion sorts.  Unix
timestamps are kept as `Nat`: `datetime.fromtimestamp` is strictly monotone,
so ordering by the resulting datetimes coincides with ordering by the raw
integer timestamps.  Configuration values that live in `bot.constants`
(ignored days, displayed-member count, leaderboard table, fallback session)
are taken as parameters.
-/

namespace AoC

/-- Generic association-list lookup: first matching key wins
(Python `dict` access / `dict.get`). -/
def alookup {κ α : Type} [DecidableEq κ] (k : κ) : List (κ × α) → Option α
  | [] => none
  | p :: t => if p.1 = k then some p.2 else alookup k t

/-- `d[k] = v` on a Python dict: replace the value at an existing key in
place (the key keeps its insertion position), or append a new key at the
end. -/
def dictSet {κ α : Type} [DecidableEq κ] (l : List (κ × α)) (k : κ) (v : α) : List (κ × α) :=
  match l with
  | [] => [(k, v)]
  | p :: t => if p.1 = k then (k, v) :: t else p :: dictSet t k v

/-- In-place update of the value stored at `k`.  In the source this is
`d[k].field += ...`, which presupposes that `k` is present (a missing key
would raise `KeyError`); the identity fallback below is never reached in the
embedded pipeline because every updated key has been inserted beforehand. -/
def dictModify {κ α : Type} [DecidableEq κ] (l : List (κ × α)) (k : κ) (f : α → α) :
    List (κ × α) :=
  match l with
  | [] => []
  | p :: t => if p.1 = k then (p.1, f p.2) :: t else p :: dictModify t k f

/-- The keys of an association list, in insertion order. -/
def keys {κ α : Type} (l : List (κ × α)) : List κ := l.map Prod.fst

/-- One member record of the raw AoC leaderboard JSON
(`member["id"]`, `member["name"]`,
`member["completion_day_level"] : day → star → {"get_star_ts": ts}`). -/
structure Member where
  id : Nat
  name : Option String
  completion_day_level : List (String × List (String × Nat))
deriving DecidableEq

/-- One value of the `leaderboard` dict built by
`_parse_raw_leaderboard_data`:
`{"name": ..., "score": 0, "star_1": 0, "star_2": 0}`. -/
structure Entry where
  name : String
  score : Nat
  star_1 : Nat
  star_2 : Nat
deriving DecidableEq

/-- The namedtuple `StarResult(member_id, completion_time)`. -/
structure StarResult where
  member_id : Nat
  completion_time : Nat
deriving DecidableEq

/-- One value of the `daily_stats` dict:
`{"star_one": ..., "star_two": ...}`. -/
structure DayStat where
  star_one : Nat
  star_two : Nat
deriving DecidableEq

/-- `name = member["name"] if member["name"] else f"Anonymous #{member['id']}"`:
a missing (`None`) or empty name is falsy. -/
def displayName (m : Member) : String :=
  match m.name with
  | some s => if s = "" then "Anonymous #" ++ Nat.repr m.id else s
  | none => "Anonymous #" ++ Nat.repr m.id

/-- `leaderboard[member_id][f"star_{star}"] += 1`.  Star keys other than
`"1"`/`"2"` would raise `KeyError` in the source; they are modelled as a
no-op and ruled out by the `RawWF` well-formedness predicate wherever the
star counters matter. -/
def incStar (star : String) (e : Entry) : Entry :=
  if star = "1" then { e with star_1 := e.star_1 + 1 }
  else if star = "2" then { e with star_2 := e.star_2 + 1 }
  else e

/-- `e.score += v`. -/
def addScore (v : Nat) (e : Entry) : Entry := { e with score := e.score + v }

/-- `star_results[(day, star)].append(r)` on a `defaultdict(list)`. -/
def addStarResult (gs : List ((String × String) × List StarResult))
    (k : String × String) (r : StarResult) : List ((String × String) × List StarResult) :=
  match gs with
  | [] => [(k, [r])]
  | p :: t => if p.1 = k then (p.1, p.2 ++ [r]) :: t else p :: addStarResult t k r

/-- The mutable state of the first loop of `_parse_raw_leaderboard_data`:
the transposed `star_results` defaultdict and the `leaderboard` dict. -/
structure BuildState where
  star_results : List ((String × String) × List StarResult)
  leaderboard : List (Nat × Entry)
deriving DecidableEq

/-- Inner loop body: `for star, data in stars.items()` for one day of one
member.  Records the star completion in the member's leaderboard entry and
appends a `StarResult` to the `(day, star)` group. -/
def processStars (mid : Nat) (day : String) (st : BuildState) :
    List (String × Nat) → BuildState
  | [] => st
  | (star, ts) :: rest =>
    processStars mid day
      ⟨addStarResult st.star_results (day, star) ⟨mid, ts⟩,
       dictModify st.leaderboard mid (incStar star)⟩ rest

/-- Middle loop body: `for day, stars in member["completion_day_level"].items()`. -/
def processDays (mid : Nat) (st : BuildState) :
    List (String × List (String × Nat)) → BuildState
  | [] => st
  | (day, stars) :: rest => processDays mid (processStars mid day st stars) rest

/-- Outer loop body: one iteration of
`for member in raw_leaderboard_data.values()`. -/
def processMember (st : BuildState) (m : Member) : BuildState :=
  processDays m.id
    ⟨st.star_results, dictSet st.leaderboard m.id ⟨displayName m, 0, 0, 0⟩⟩
    m.completion_day_level

/-- The state after the whole first loop of `_parse_raw_leaderboard_data`.
The raw input is the list `raw_leaderboard_data.values()` (the dict keys are
never read by the source). -/
def buildState (raw : List Member) : BuildState :=
  raw.foldl processMember ⟨[], []⟩

/-- Stable insert for `sorted(results, key=attrgetter("completion_time"))`:
an element is placed after every element with a strictly smaller key and
after earlier elements with an equal key. -/
def insertByTime (r : StarResult) : List StarResult → List StarResult
  | [] => [r]
  | y :: ys =>
    if y.completion_time < r.completion_time then y :: insertByTime r ys
    else r :: y :: ys

/-- `sorted(results, key=operator.attrgetter("completion_time"))`
(stable, ascending). -/
def sortByTime : List StarResult → List StarResult
  | [] => []
  | r :: rs => insertByTime r (sortByTime rs)

/-- `for rank, star_result in enumerate(sorted_result):
leaderboard[...]["score"] += max_score - rank`. -/
def awardLoop (maxScore : Nat) (rank : Nat) (lb : List (Nat × Entry)) :
    List StarResult → List (Nat × Entry)
  | [] => lb
  | r :: rs =>
    awardLoop maxScore (rank + 1)
      (dictModify lb r.member_id (addScore (maxScore - rank))) rs

/-- Processing of one `(day, star)` group in the score pass: sort the
group's completions by time and award `max_score - rank` to each. -/
def applyGroup (maxScore : Nat) (lb : List (Nat × Entry)) (results : List StarResult) :
    List (Nat × Entry) :=
  awardLoop maxScore 0 lb (sortByTime results)

/-- The score pass: `for (day, _star), results in star_results.items()`,
skipping days on the ignored list (`AdventOfCode.ignored_days`, a config
value modelled as the parameter `ig`). -/
def scorePass (ig : List String) (maxScore : Nat) (lb : List (Nat × Entry)) :
    List ((String × String) × List StarResult) → List (Nat × Entry)
  | [] => lb
  | (k, results) :: rest =>
    if k.1 ∈ ig then scorePass ig maxScore lb rest
    else scorePass ig maxScore (applyGroup maxScore lb results) rest

/-- `leaderboard_sorting_function`: sort key
`(result["score"], result["star_2"] + result["star_1"])`. -/
def leaderboard_sorting_function (entry : Nat × Entry) : Nat × Nat :=
  (entry.2.score, entry.2.star_2 + entry.2.star_1)

/-- Strict `>` on Python tuples (lexicographic). -/
def tupleGt (a b : Nat × Nat) : Prop := b.1 < a.1 ∨ (a.1 = b.1 ∧ b.2 < a.2)

instance (a b : Nat × Nat) : Decidable (tupleGt a b) := by
  unfold tupleGt; infer_instance

/-- Stable insert for
`sorted(leaderboard.items(), key=leaderboard_sorting_function, reverse=True)`:
an element is placed after every element with a strictly greater key and
after earlier elements with an equal key. -/
def insertDescLB (x : Nat × Entry) : List (Nat × Entry) → List (Nat × Entry)
  | [] => [x]
  | y :: ys =>
    if tupleGt (leaderboard_sorting_function y) (leaderboard_sorting_function x) then
      y :: insertDescLB x ys
    else x :: y :: ys

/-- The final descending stable sort of the leaderboard. -/
def sortDescLB : List (Nat × Entry) → List (Nat × Entry)
  | [] => []
  | x :: xs => insertDescLB x (sortDescLB xs)

/-- `star_results.get((day, star), [])`. -/
def groupGet (gs : List ((String × String) × List StarResult)) (k : String × String) :
    List StarResult :=
  (alookup k gs).getD []

/-- `daily_stats`: for each day `"1"`..`"25"`, the raw counts of first- and
second-star completions. -/
def dailyStats (gs : List ((String × String) × List StarResult)) :
    List (String × DayStat) :=
  (List.range' 1 25).map fun d =>
    (Nat.repr d, ⟨(groupGet gs (Nat.repr d, "1")).length, (groupGet gs (Nat.repr d, "2")).length⟩)

/-- The value returned by `_parse_raw_leaderboard_data`. -/
structure ParseResult where
  daily_stats : List (String × DayStat)
  leaderboard : List (Nat × Entry)
deriving DecidableEq

/-- `_parse_raw_leaderboard_data`, for the ignored-days config `ig`. -/
def parse_raw_leaderboard_data (ig : List String) (raw : List Member) : ParseResult :=
  let st := buildState raw
  let maxScore := st.leaderboard.length
  let scored := scorePass ig maxScore st.leaderboard st.star_results
  ⟨dailyStats st.star_results, sortDescLB scored⟩

/-- Well-formedness of one raw member record, reflecting that the JSON data
is dict-shaped: day keys are unique, star keys within a day are unique, and
star keys are `"1"` or `"2"` (anything else would raise `KeyError` on
`leaderboard[member_id][f"star_{star}"]`). -/
def MemberWF (m : Member) : Prop :=
  (m.completion_day_level.map Prod.fst).Nodup ∧
    ∀ q ∈ m.completion_day_level,
      (q.2.map Prod.fst).Nodup ∧ ∀ p ∈ q.2, p.1 = "1" ∨ p.1 = "2"

instance (m : Member) : Decidable (MemberWF m) := by
  unfold MemberWF; infer_instance

/-- Well-formedness of the raw leaderboard: member ids are unique (the AoC
JSON is a dict keyed by member id) and every member record is well-formed. -/
def RawWF (raw : List Member) : Prop :=
  (raw.map Member.id).Nodup ∧ ∀ m ∈ raw, MemberWF m

instance (raw : List Member) : Decidable (RawWF raw) := by
  unfold RawWF; infer_instance

/-- The `StarResult` contributed by the star list of one day if the star key
is present (used to characterise the contents of a `star_results` group). -/
def starsLookup (mid : Nat) (stars : List (String × Nat)) (s : String) : List StarResult :=
  match alookup s stars with
  | none => []
  | some ts => [⟨mid, ts⟩]

/-- The `StarResult` contributed by one member to the group keyed
`(k.1, k.2)`: present exactly when the member completed star `k.2` of day
`k.1`. -/
def daysLookup (mid : Nat) (cdl : List (String × List (String × Nat)))
    (k : String × String) : List StarResult :=
  match alookup k.1 cdl with
  | none => []
  | some stars => starsLookup mid stars k.2

/-- See `daysLookup`. -/
def memberContrib (m : Member) (k : String × String) : List StarResult :=
  daysLookup m.id m.completion_day_level k

/-- The full contents of the `star_results` group keyed `k`: one entry per
member with a completion of that day/star, in member order. -/
def collectGroup (k : String × String) : List Member → List StarResult
  | [] => []
  | m :: rest => memberContrib m k ++ collectGroup k rest

/-- Total of the rank awards `maxScore - rank` over a group of `n` entries,
starting at a given rank. -/
def awardTotal (M : Nat) : Nat → Nat → Nat
  | _, 0 => 0
  | rank, n + 1 => (M - rank) + awardTotal M (rank + 1) n

/-- `"{x: >w}"`: right-align in a field of `w` characters, space-filled
(no truncation; a longer string is kept whole). -/
def padLeft (w : Nat) (s : String) : String :=
  String.mk (List.replicate (w - s.length) ' ') ++ s

/-- Format precision `.w` on a string: keep the first `w` characters. -/
def pyTruncate (w : Nat) (s : String) : String := String.mk (s.data.take w)

/-- `"{x:w}"` on a string: left-align in a field of `w` characters. -/
def padRight (w : Nat) (s : String) : String :=
  s ++ String.mk (List.replicate (w - s.length) ' ')

/-- `AOC_TABLE_TEMPLATE.format(rank=..., name=..., score=..., stars=...)`
with template `"{rank: >4} | {name:25.25} | {score: >5} | {stars}"`. -/
def aocTableLine (rank name score stars : String) : String :=
  padLeft 4 rank ++ " | " ++ padRight 25 (pyTruncate 25 name) ++ " | " ++
    padLeft 5 score ++ " | " ++ stars

/-- The first header line:
`AOC_TABLE_TEMPLATE.format(rank="", name="Name", score="Score", stars="⭐, ⭐⭐")`. -/
def headerFirstLine : String := aocTableLine "" "Name" "Score" "⭐, ⭐⭐"

/-- The dash separator line, `"-" * (len(HEADER) + 2)` (computed before the
separator is appended to `HEADER`). -/
def dashLine : String := String.mk (List.replicate (headerFirstLine.length + 2) '-')

/-- `HEADER = f"{HEADER}\n{'-' * (len(HEADER) + 2)}"`. -/
def HEADER : String := headerFirstLine ++ "\n" ++ dashLine

/-- Split a character list at each `'\n'` (keeping empty pieces). -/
def splitNl : List Char → List (List Char)
  | [] => [[]]
  | c :: cs =>
    if c = '\n' then [] :: splitNl cs
    else
      match splitNl cs with
      | [] => [[c]]
      | l :: ls => (c :: l) :: ls

/-- Python `str.splitlines()` for strings whose only line-break character is
`'\n'` (the Python method also splits on `'\r'` and a few other control and
unicode characters; those are excluded by the `LineSafe` hypothesis wherever
this model is used): split at newlines, without a final empty line for a
trailing newline. -/
def splitlines (s : String) : List String :=
  let parts := splitNl s.data
  (if parts.getLast? = some [] then parts.dropLast else parts).map String.mk

/-- `"\n".join(...)`. -/
def joinNl : List String → String
  | [] => ""
  | [s] => s
  | s :: rest => s ++ "\n" ++ joinNl rest

/-- `HEADER_LINES = len(HEADER.splitlines())`. -/
def HEADER_LINES : Nat := (splitlines HEADER).length

/-- `TOP_LEADERBOARD_LINES = HEADER_LINES + AdventOfCode.leaderboard_displayed_members`;
the displayed-member count is a config value taken as the parameter `N`. -/
def TOP_LEADERBOARD_LINES (N : Nat) : Nat := HEADER_LINES + N

/-- One line of `_format_leaderboard`, for a 1-based rank: the stars column
is `f"({data['star_1']}, {data['star_2']})"`. -/
def entryLine (rank : Nat) (e : Entry) : String :=
  aocTableLine (Nat.repr rank) e.name (Nat.repr e.score)
    ("(" ++ Nat.repr e.star_1 ++ ", " ++ Nat.repr e.star_2 ++ ")")

/-- The lines for `enumerate(leaderboard.values(), start=rank)`. -/
def entryLines (rank : Nat) : List Entry → List String
  | [] => []
  | e :: rest => entryLine rank e :: entryLines (rank + 1) rest

/-- `_format_leaderboard`. -/
def format_leaderboard (lb : List (Nat × Entry)) : String :=
  joinNl (HEADER :: entryLines 1 (lb.map Prod.snd))

/-- `_get_top_leaderboard`:
`"\n".join(full_leaderboard.splitlines()[:TOP_LEADERBOARD_LINES])`. -/
def get_top_leaderboard (N : Nat) (full : String) : String :=
  joinNl ((splitlines full).take (TOP_LEADERBOARD_LINES N))

/-- The characters `str.splitlines` treats as line boundaries. -/
def pyLineBreaks : List Char :=
  ['\n', '\r', '\x0b', '\x0c', '\x1c', '\x1d', '\x1e', '\x85', '\u2028', '\u2029']

/-- A string containing no line-break character. -/
def LineSafe (s : String) : Prop := ∀ c ∈ s.data, c ∉ pyLineBreaks

instance (s : String) : Decidable (LineSafe s) := by
  unfold LineSafe; infer_instance

/-- A string not containing `'\n'`. -/
def NoNlS (s : String) : Prop := '\n' ∉ s.data

instance (s : String) : Decidable (NoNlS s) := by
  unfold NoNlS; infer_instance

/-- Projection of a leaderboard dict to member id → score. -/
def scoreMap (lb : List (Nat × Entry)) : List (Nat × Nat) :=
  lb.map fun p => (p.1, p.2.score)

/-- Projection of a leaderboard dict to member id → (star_1, star_2). -/
def starsMap (lb : List (Nat × Entry)) : List (Nat × Nat × Nat) :=
  lb.map fun p => (p.1, p.2.star_1, p.2.star_2)

/-- A leaderboard-score projection in which every member has score `0`. -/
def zeroMap (ks : List Nat) : List (Nat × Nat) :=
  ks.map fun k => (k, 0)

/-- The evolution of the leaderboard key list under repeated `dictSet`. -/
def foldKeys : List Nat → List Nat → List Nat
  | [], ks => ks
  | i :: rest, ks => foldKeys rest (if i ∈ ks then ks else ks ++ [i])

/-- A member with all completions on ignored days removed (the member record
itself, and completions on non-ignored days, are kept). -/
def dropIgnored (ig : List String) (m : Member) : Member :=
  { m with completion_day_level := m.completion_day_level.filter fun q => decide (q.1 ∉ ig) }

/-- Raw leaderboard data with all ignored-day completions removed.  Two raw
inputs "differing only in timestamps (or presence) of completions on
ignored days" are exactly two inputs with the same image under this map. -/
def dropIgnoredRaw (ig : List String) (raw : List Member) : List Member :=
  raw.map (dropIgnored ig)

/-- The `star_results` groups whose day is not on the ignored list. -/
def filterGroups (ig : List String) (gs : List ((String × String) × List StarResult)) :
    List ((String × String) × List StarResult) :=
  gs.filter fun p => decide (p.1.1 ∉ ig)

/-- The score pass with no ignored-day skipping (used to show that the pass
is equivalent to folding over the non-ignored groups only). -/
def scorePassAll (M : Nat) (lb : List (Nat × Entry)) :
    List ((String × String) × List StarResult) → List (Nat × Entry)
  | [] => lb
  | (_, results) :: rest => scorePassAll M (applyGroup M lb results) rest

/-- The relation between a full build state and the build state of the same
input with ignored-day completions removed: same non-ignored groups, same
scores, same keys. -/
def InvDrop (ig : List String) (st stF : BuildState) : Prop :=
  stF.star_results = filterGroups ig st.star_results ∧
    scoreMap stF.leaderboard = scoreMap st.leaderboard ∧
    keys stF.leaderboard = keys st.leaderboard

/-- The ordering the spec claims for the final leaderboard: descending by
score, tie-broken by descending total stars. -/
def lbRel (a b : Nat × Entry) : Prop :=
  b.2.score < a.2.score ∨
    (a.2.score = b.2.score ∧ b.2.star_1 + b.2.star_2 ≤ a.2.star_1 + a.2.star_2)

/-- The concrete example input of the spec (section 8): two members, both
completing star 1 of day 1, member 1 first. -/
def rawExample : List Member :=
  [⟨1, some "A", [("1", [("1", 100)])]⟩, ⟨2, some "B", [("1", [("1", 200)])]⟩]

/-- A single member completing one star: the smallest input on which the
spec's per-star score-sum formula diverges from the code. -/
def rawSingle : List Member := [⟨1, some "A", [("1", [("1", 100)])]⟩]

/-- `rawExample` with an extra completion on day `"3"` for member 1: differs
from `rawExample` only in completions on day `"3"`. -/
def rawExtra : List Member :=
  [⟨1, some "A", [("1", [("1", 100)]), ("3", [("1", 999)])]⟩,
   ⟨2, some "B", [("1", [("1", 200)])]⟩]

/-- Total of all scores currently on a leaderboard dict. -/
def totalScore (lb : List (Nat × Entry)) : Nat :=
  (lb.map fun p => p.2.score).sum

/-- The score recorded for a member id on a leaderboard dict. -/
def scoreOf (lb : List (Nat × Entry)) (mid : Nat) : Option Nat :=
  (alookup mid lb).map Entry.score

/-- The `(star_1, star_2)` counters recorded for a member id. -/
def starsOf (lb : List (Nat × Entry)) (mid : Nat) : Option (Nat × Nat) :=
  (alookup mid lb).map fun e => (e.star_1, e.star_2)

/-- A parsed JSON leaderboard response; only its `members` field is read
(`raw_data["members"]`, a dict keyed by member-id strings). -/
structure BoardJson where
  members : List (String × Member)
deriving DecidableEq

/-- An HTTP response as observed by `_leaderboard_request`: the final URL
(after any silent redirect), the status code, and the JSON body. -/
structure Resp where
  url : String
  status : Nat
  body : BoardJson
deriving DecidableEq

/-- The exceptions `_leaderboard_request` can raise.  `UnexpectedRedirect`
and `UnexpectedResponseStatus` both subclass `aiohttp.ClientError`;
`clientError` stands for any other transport-level `aiohttp.ClientError`
raised by the request itself. -/
inductive ReqError
  | unexpectedRedirect
  | unexpectedStatus (code : Nat)
  | clientError
deriving DecidableEq

/-- `_leaderboard_request`: an oracle result of `.error ()` is a transport
error raised by `aiohttp.request` itself.  A response whose URL differs from
the requested URL raises `UnexpectedRedirect`; any status other than 200
raises `UnexpectedResponseStatus`; otherwise the JSON body is returned. -/
def leaderboard_request (url : String) (resp : Except Unit Resp) : Except ReqError BoardJson :=
  match resp with
  | .error _ => .error .clientError
  | .ok r =>
    if r.url ≠ url then .error .unexpectedRedirect
    else if r.status ≠ 200 then .error (.unexpectedStatus r.status)
    else .ok r.body

/-- One entry of `AdventOfCode.leaderboards` (config, not in the source
tree): board id, configured (primary) session cookie, join code. -/
structure LeaderboardCfg where
  id : Nat
  session : String
  join_code : String
deriving DecidableEq

/-- `AOC_API_URL.format(year=year, leaderboard_id=id)`. -/
def aocApiUrl (year : Nat) (id : Nat) : String :=
  "https://adventofcode.com/" ++ Nat.repr year ++ "/leaderboard/private/view/"
    ++ Nat.repr id ++ ".json"

/-- The per-board fetch loop of `_fetch_leaderboard_data`
(`for attempt in range(1, 3)`), returning the session cookies attempted (in
order) and either the response body or a `FetchingLeaderboardFailed`
failure (`.error ()`).  `oracle` maps a session cookie to the response of a
request made with it; `useFallback` is the board's persistent
`use_fallback_session` flag at entry (`false` on a fresh run).  That flag
switching `leaderboard.session` to the fallback session is modelled from
the spec ("switch to the fallback credential and retry once"): the config
class implementing it lives in `bot.constants`, which is not under the
source tree.  On an `UnexpectedRedirect` with the fallback cookie the fetch
fails permanently; any other `aiohttp.ClientError` (including a non-200
status) fails without a retry. -/
def fetchBoard (oracle : String → Except Unit Resp) (url fallback : String)
    (cfgSession : String) (useFallback : Bool) :
    List String × Except Unit BoardJson :=
  let c1 := if useFallback then fallback else cfgSession
  match leaderboard_request url (oracle c1) with
  | .ok d => ([c1], .ok d)
  | .error .unexpectedRedirect =>
    if c1 = fallback then ([c1], .error ())
    else
      match leaderboard_request url (oracle fallback) with
      | .ok d => ([c1, fallback], .ok d)
      | .error _ => ([c1, fallback], .error ())
  | .error _ => ([c1], .error ())

/-- `participants.update(board_participants)`: dict update, overwriting
existing keys in place and appending new ones. -/
def dictUpdateAll {κ α : Type} [DecidableEq κ] (l : List (κ × α)) :
    List (κ × α) → List (κ × α)
  | [] => l
  | p :: t => dictUpdateAll (dictSet l p.1 p.2) t

/-- The board loop of `_fetch_leaderboard_data`, threading the pooled
participants and the `leaderboard_counts` cache writes.  Any board failure
aborts the whole fetch with `FetchingLeaderboardFailed` (in the source the
counts already written for earlier boards persist in Redis; this model
returns no data at all on failure, which is all the claims rely on). -/
def fetchAllLoop (oracle : Nat → String → Except Unit Resp) (year : Nat) (fallback : String) :
    List LeaderboardCfg → List (String × Member) → List (Nat × Nat) →
      Except Unit (List (String × Member) × List (Nat × Nat))
  | [], parts, counts => .ok (parts, counts)
  | b :: rest, parts, counts =>
    match fetchBoard (oracle b.id) (aocApiUrl year b.id) fallback b.session false with
    | (_, .error _) => .error ()
    | (_, .ok d) =>
      fetchAllLoop oracle year fallback rest (dictUpdateAll parts d.members)
        (dictSet counts b.id d.members.length)

/-- `_fetch_leaderboard_data` for a fresh run (no board has
`use_fallback_session` set yet). -/
def fetch_leaderboard_data (oracle : Nat → String → Except Unit Resp) (year : Nat)
    (fallback : String) (boards : List LeaderboardCfg) :
    Except Unit (List (String × Member) × List (Nat × Nat)) :=
  fetchAllLoop oracle year fallback boards [] []

/-- The two caches read and written by `get_public_join_code`:
`assigned_leaderboard` (author id → board id) and `leaderboard_counts`
(board id → participant count). -/
structure JoinState where
  assigned : List (Nat × Nat)
  counts : List (Nat × Nat)
deriving DecidableEq

/-- `dict.pop(key, None)`: remove the key if present. -/
def dictPop {κ α : Type} [DecidableEq κ] (l : List (κ × α)) (k : κ) : List (κ × α) :=
  l.filter fun p => decide (p.1 ≠ k)

/-- `min(counts.items(), key=operator.itemgetter(1))`: the first item with
minimal count; `none` for the empty dict (where Python raises
`ValueError`). -/
def minBySnd : List (Nat × Nat) → Option (Nat × Nat)
  | [] => none
  | x :: xs => some (xs.foldl (fun acc y => if y.2 < acc.2 then y else acc) x)

/-- The tail of `get_public_join_code` past the sticky-assignment check and
refetch: pick the least-populated board from the current counts dict,
report no board when even that one is at the 200 cap, otherwise persist the
assignment and return the board's join code.  `.error ()` models an
uncaught exception (`ValueError` from `min` on an empty dict, or `KeyError`
for a board id missing from the config; in the latter case the assignment
write that precedes the lookup is lost in this model, which no claim
relies on). -/
def assignNewBoard (boards : List (Nat × String)) (author : Nat) (st : JoinState)
    (counts1 : List (Nat × Nat)) : Except Unit (Option String × JoinState) :=
  match minBySnd counts1 with
  | none => .error ()
  | some best =>
    if 200 ≤ (alookup best.1 counts1).getD 0 then .ok (none, st)
    else
      match alookup best.1 boards with
      | some code => .ok (some code, { st with assigned := dictSet st.assigned author best.1 })
      | none => .error ()

/-- `get_public_join_code`, modelled on the cache state after the initial
`fetch_leaderboard()` refresh: `staffId` is
`AdventOfCode.staff_leaderboard_id`, `boards` maps board ids to join codes
(`AdventOfCode.leaderboards`), and `refetched` is the `leaderboard_counts`
cache contents after the forced `fetch_leaderboard(invalidate_cache=True)`
triggered when the staff-popped counts dict is empty (taken whole: the
staff board is not popped again, exactly as in the source).  A previously
assigned board id is truthy when non-zero; if its count in the staff-popped
counts dict (0 when absent) is below the 200 cap, the same join code is
returned and nothing is written. -/
def get_public_join_code (staffId : Nat) (boards : List (Nat × String))
    (refetched : List (Nat × Nat)) (author : Nat) (st : JoinState) :
    Except Unit (Option String × JoinState) :=
  match alookup author st.assigned with
  | some b =>
    if b ≠ 0 then
      if (alookup b (dictPop st.counts staffId)).getD 0 < 200 then
        match alookup b boards with
        | some code => .ok (some code, st)
        | none => .error ()
      else
        assignNewBoard boards author st
          (if (dictPop st.counts staffId).isEmpty then refetched else dictPop st.counts staffId)
    else
      assignNewBoard boards author st
        (if (dictPop st.counts staffId).isEmpty then refetched else dictPop st.counts staffId)
  | none =>
    assignNewBoard boards author st
      (if (dictPop st.counts staffId).isEmpty then refetched else dictPop st.counts staffId)

/-- A Python value decoded from JSON by `resp.json()`: the six Python types
the json module can produce (None, bool, int, str, list, dict). -/
inductive PyJson
  | pynone
  | pybool (b : Bool)
  | pyint (n : Int)
  | pystr (s : String)
  | pylist (items : List PyJson)
  | pydict (fields : List (String × PyJson))

mutual
/-- Python `repr` of a JSON-decoded value (string escaping inside
`repr` of strings is not modelled; no claim depends on it). -/
def pyRepr : PyJson → String
  | .pynone => "None"
  | .pybool true => "True"
  | .pybool false => "False"
  | .pyint n => toString n
  | .pystr s => "\x27" ++ s ++ "\x27"
  | .pylist l => "[" ++ pyReprList l ++ "]"
  | .pydict l => "\x7b" ++ pyReprFields l ++ "\x7d"
/-- Comma-separated `repr`s of list elements. -/
def pyReprList : List PyJson → String
  | [] => ""
  | [e] => pyRepr e
  | e :: rest => pyRepr e ++ ", " ++ pyReprList rest
/-- Comma-separated `repr: repr` pairs of dict items. -/
def pyReprFields : List (String × PyJson) → String
  | [] => ""
  | [p] => "\x27" ++ p.1 ++ "\x27: " ++ pyRepr p.2
  | p :: rest => "\x27" ++ p.1 ++ "\x27: " ++ pyRepr p.2 ++ ", " ++ pyReprFields rest
end

/-- Python `str` of a JSON-decoded value: the string itself for a string,
`repr` otherwise (these agree for every JSON value type). -/
def pyStr : PyJson → String
  | .pystr s => s
  | j => pyRepr j

/-- Python `"key" in x` for a JSON-decoded value: key membership for an
object, element equality for an array (a string equals only an equal
string), substring test for a string; a `TypeError` (modelled `.error ()`)
for `None`, booleans and numbers. -/
def pyContains (j : PyJson) (k : String) : Except Unit Bool :=
  match j with
  | .pydict fields => .ok (fields.any fun p => p.1 == k)
  | .pylist elems => .ok (elems.any fun e =>
      match e with
      | .pystr s => s == k
      | _ => false)
  | .pystr s => .ok (decide (k.data <:+: s.data))
  | _ => .error ()

/-- Python `x["key"]`: field lookup for an object, `TypeError` for every
other shape (string and list indices must be integers). -/
def pyGetItem (j : PyJson) (k : String) : Except Unit PyJson :=
  match j with
  | .pydict fields =>
    match alookup k fields with
    | some v => .ok v
    | none => .error ()
  | _ => .error ()

/-- `RAW_PASTE_URL_TEMPLATE.format(key=...)`. -/
def RAW_PASTE_URL (key : String) : String :=
  "https://paste.pythondiscord.com/raw/" ++ key

/-- `_upload_leaderboard`, as a function of the paste-service response
body: `.error ()` on the left means `resp.json()` raised (non-JSON body),
which is caught and reported as the empty URL; an `.error ()` result models
an uncaught `TypeError` escaping the function. -/
def upload_leaderboard (body : Except Unit PyJson) : Except Unit String :=
  match body with
  | .error _ => .ok ""
  | .ok j =>
    match pyContains j "key" with
    | .error e => .error e
    | .ok true =>
      match pyGetItem j "key" with
      | .error e => .error e
      | .ok v => .ok (RAW_PASTE_URL (pyStr v))
    | .ok false => .ok ""

/-! ## Lemmas and theorems -/

lemma lbRel_of_not_gt {x y : Nat × Entry}
    (h : ¬ tupleGt (leaderboard_sorting_function y) (leaderboard_sorting_function x)) :
    lbRel x y := by
  simp only [tupleGt, leaderboard_sorting_function, not_or, not_and, not_lt] at h
  rcases h with ⟨h1, h2⟩
  by_cases hs : x.2.score = y.2.score
  · exact Or.inr ⟨hs, by omega⟩
  · exact Or.inl (by omega)

lemma lbRel_of_gt {x y : Nat × Entry}
    (h : tupleGt (leaderboard_sorting_function y) (leaderboard_sorting_function x)) :
    lbRel y x := by
  rcases h with h | ⟨h1, h2⟩
  · exact Or.inl h
  · exact Or.inr ⟨(by simpa [leaderboard_sorting_function] using h1), by
      simp only [leaderboard_sorting_function] at h2 ⊢; omega⟩

lemma chain'_insertDescLB (x : Nat × Entry) :
    ∀ l : List (Nat × Entry), List.Chain' lbRel l →
      List.Chain' lbRel (insertDescLB x l) ∧
      ∀ w, (insertDescLB x l).head? = some w → w = x ∨ l.head? = some w := by
  intro l
  induction l with
  | nil =>
    intro _
    refine ⟨by simp [insertDescLB], ?_⟩
    intro w hw
    simp only [insertDescLB, List.head?] at hw
    exact Or.inl (Option.some_injective _ hw).symm
  | cons y ys ih =>
    intro h
    rw [insertDescLB]
    by_cases hgt : tupleGt (leaderboard_sorting_function y) (leaderboard_sorting_function x)
    · rw [if_pos hgt]
      have h1 := (List.chain'_cons'.mp h).1
      have h2 := (List.chain'_cons'.mp h).2
      obtain ⟨hc, hh⟩ := ih h2
      refine ⟨List.chain'_cons'.mpr ⟨?_, hc⟩, ?_⟩
      · intro w hw
        rcases hh w hw with rfl | hw2
        · exact lbRel_of_gt hgt
        · exact h1 w hw2
      · intro w hw
        simp only [List.head?] at hw ⊢
        exact Or.inr hw
    · rw [if_neg hgt]
      refine ⟨List.chain'_cons'.mpr ⟨?_, h⟩, ?_⟩
      · intro w hw
        simp only [List.head?, Option.mem_def, Option.some.injEq] at hw
        subst hw
        exact lbRel_of_not_gt hgt
      · intro w hw
        simp only [List.head?, Option.some.injEq] at hw
        exact Or.inl hw.symm

lemma chain'_sortDescLB (l : List (Nat × Entry)) : List.Chain' lbRel (sortDescLB l) := by
  induction l with
  | nil => simp [sortDescLB]
  | cons x xs ih => exact (chain'_insertDescLB x (sortDescLB xs) ih).1

/-- C2.  The aggregated leaderboard returned by `_parse_raw_leaderboard_data`
is ordered: for every adjacent pair `(a, b)` in list order, either
`score a > score b`, or the scores are equal and the total star count of `a`
is at least that of `b`. -/
theorem c2_leaderboard_ordering (ig : List String) (raw : List Member) :
    List.Chain' lbRel (parse_raw_leaderboard_data ig raw).leaderboard :=
  chain'_sortDescLB _

/-- C8.  On the spec's concrete example input, member 1 (earlier completion)
scores 2, member 2 scores 1, and the leaderboard lists member 1 first. -/
theorem c8_example :
    scoreOf (parse_raw_leaderboard_data [] rawExample).leaderboard 1 = some 2 ∧
    scoreOf (parse_raw_leaderboard_data [] rawExample).leaderboard 2 = some 1 ∧
    keys (parse_raw_leaderboard_data [] rawExample).leaderboard = [1, 2] := by
  decide

/-- C1, counterexample to the claim as stated.  With a single participant
completing star 1 of day 1 (no ties, day not ignored), the participant count
with a record for that star is `N = 1`, and the aggregator awards a total of
`1` point for that star, whereas `N * (N - 1) / 2 = 0`. -/
theorem c1_counterexample :
    (groupGet (buildState rawSingle).star_results ("1", "1")).length = 1 ∧
    totalScore (parse_raw_leaderboard_data [] rawSingle).leaderboard = 1 ∧
    ¬ (1 : Nat) = 1 * (1 - 1) / 2 := by
  decide

lemma alookup_eq_none_of_not_mem {κ α : Type} [DecidableEq κ] {k : κ} :
    ∀ {l : List (κ × α)}, k ∉ keys l → alookup k l = none
  | [], _ => rfl
  | p :: t, h => by
    have h1 : ¬ p.1 = k := fun he => h (by simp [keys, he])
    have h2 : k ∉ keys t := fun hm => h (by simp [keys] at hm ⊢; exact Or.inr hm)
    simp only [alookup, if_neg h1]
    exact alookup_eq_none_of_not_mem h2

lemma groupGet_nil (k : String × String) : groupGet [] k = [] := rfl

lemma groupGet_addStarResult_self (k : String × String) (r : StarResult) :
    ∀ gs, groupGet (addStarResult gs k r) k = groupGet gs k ++ [r]
  | [] => by simp [addStarResult, groupGet, alookup]
  | p :: t => by
    by_cases hp : p.1 = k
    · simp [addStarResult, if_pos hp, groupGet, alookup, hp]
    · simp only [addStarResult, if_neg hp, groupGet, alookup, if_neg hp]
      exact groupGet_addStarResult_self k r t

lemma groupGet_addStarResult_ne {k k2 : String × String} (hne : k2 ≠ k) (r : StarResult) :
    ∀ gs, groupGet (addStarResult gs k r) k2 = groupGet gs k2
  | [] => by
    simp [addStarResult, groupGet, alookup, Ne.symm hne]
  | p :: t => by
    by_cases hp : p.1 = k
    · have hp2 : ¬ p.1 = k2 := fun h => hne (h ▸ hp ▸ rfl)
      simp [addStarResult, if_pos hp, groupGet, alookup, hp, hp2, Ne.symm hne]
    · simp only [addStarResult, if_neg hp, groupGet, alookup]
      by_cases hp2 : p.1 = k2
      · simp [hp2]
      · simp only [if_neg hp2]
        exact groupGet_addStarResult_ne hne r t

lemma processStars_star_results (mid : Nat) (day : String) :
    ∀ (stars : List (String × Nat)) (st : BuildState) (k : String × String),
      (stars.map Prod.fst).Nodup →
      groupGet (processStars mid day st stars).star_results k =
        groupGet st.star_results k ++
          (if k.1 = day then starsLookup mid stars k.2 else [])
  | [], st, k, _ => by
    simp [processStars, starsLookup, alookup]
  | (s, ts) :: rest, st, k, hnd => by
    obtain ⟨k1, k2⟩ := k
    have hnd2 : (s :: rest.map Prod.fst).Nodup := by rw [List.map_cons] at hnd; exact hnd
    have hnd' : (rest.map Prod.fst).Nodup := hnd2.of_cons
    have hs : s ∉ rest.map Prod.fst := (List.nodup_cons.mp hnd2).1
    rw [processStars, processStars_star_results mid day rest _ (k1, k2) hnd']
    by_cases hk : (k1, k2) = (day, s)
    · rw [hk]
      rw [groupGet_addStarResult_self]
      have halook : alookup s rest = none := by
        apply alookup_eq_none_of_not_mem
        simpa [keys] using hs
      have hk1 : k1 = day := (Prod.mk.injEq _ _ _ _ ▸ hk).1
      have hk2 : k2 = s := (Prod.mk.injEq _ _ _ _ ▸ hk).2
      simp [starsLookup, alookup, halook, hk1, hk2]
    · rw [groupGet_addStarResult_ne hk]
      by_cases hd : k1 = day
      · have hks : ¬ s = k2 := by
          intro h
          exact hk (by simp [hd, h.symm])
        simp [hd, starsLookup, alookup, hks]
      · simp [hd]

lemma processDays_star_results (mid : Nat) :
    ∀ (cdl : List (String × List (String × Nat))) (st : BuildState) (k : String × String),
      (cdl.map Prod.fst).Nodup →
      (∀ q ∈ cdl, ((q.2.map Prod.fst).Nodup)) →
      groupGet (processDays mid st cdl).star_results k =
        groupGet st.star_results k ++ daysLookup mid cdl k
  | [], st, k, _, _ => by simp [processDays, daysLookup, alookup]
  | (day, stars) :: rest, st, k, hnd, hwf => by
    obtain ⟨k1, k2⟩ := k
    have hnd2 : (day :: rest.map Prod.fst).Nodup := by rw [List.map_cons] at hnd; exact hnd
    have hnd' : (rest.map Prod.fst).Nodup := hnd2.of_cons
    have hday : day ∉ rest.map Prod.fst := (List.nodup_cons.mp hnd2).1
    have hstars : (stars.map Prod.fst).Nodup := hwf (day, stars) (by simp)
    rw [processDays, processDays_star_results mid rest _ (k1, k2) hnd'
      (fun q hq => hwf q (List.mem_cons_of_mem _ hq))]
    rw [processStars_star_results mid day stars st (k1, k2) hstars]
    by_cases hd : k1 = day
    · subst hd
      have halook : alookup k1 rest = none := by
        apply alookup_eq_none_of_not_mem
        simpa [keys] using hday
      simp [daysLookup, alookup, halook]
    · have hne : ¬ day = k1 := fun h => hd h.symm
      simp [daysLookup, alookup, hd, hne]

lemma processMember_star_results (st : BuildState) (m : Member) (k : String × String)
    (hwf : MemberWF m) :
    groupGet (processMember st m).star_results k =
      groupGet st.star_results k ++ memberContrib m k := by
  unfold processMember memberContrib
  exact processDays_star_results m.id m.completion_day_level _ k hwf.1
    (fun q hq => (hwf.2 q hq).1)

lemma foldl_processMember_star_results (k : String × String) :
    ∀ (raw : List Member) (st : BuildState), (∀ m ∈ raw, MemberWF m) →
      groupGet (raw.foldl processMember st).star_results k =
        groupGet st.star_results k ++ collectGroup k raw
  | [], st, _ => by simp [collectGroup]
  | m :: rest, st, hwf => by
    rw [List.foldl_cons,
      foldl_processMember_star_results k rest _ (fun x hx => hwf x (List.mem_cons_of_mem _ hx)),
      processMember_star_results st m k (hwf m (by simp)), collectGroup, List.append_assoc]

lemma buildState_groupGet (raw : List Member) (k : String × String)
    (hwf : ∀ m ∈ raw, MemberWF m) :
    groupGet (buildState raw).star_results k = collectGroup k raw := by
  unfold buildState
  rw [foldl_processMember_star_results k raw _ hwf]
  rfl

lemma memberContrib_cases (m : Member) (k : String × String) :
    memberContrib m k = [] ∨ ∃ ts, memberContrib m k = [⟨m.id, ts⟩] := by
  unfold memberContrib daysLookup starsLookup
  rcases he : alookup k.1 m.completion_day_level with _ | stars
  · exact Or.inl (by simp)
  · rcases he2 : alookup k.2 stars with _ | ts
    · exact Or.inl (by simp [he2])
    · exact Or.inr ⟨ts, by simp [he2]⟩

lemma keys_dictSet {κ α : Type} [DecidableEq κ] (k : κ) (v : α) :
    ∀ l : List (κ × α),
      keys (dictSet l k v) = if k ∈ keys l then keys l else keys l ++ [k]
  | [] => by simp [dictSet, keys]
  | p :: t => by
    by_cases hp : p.1 = k
    · simp [dictSet, hp, keys]
    · have hne : ¬ k = p.1 := fun h => hp h.symm
      have hcons : keys (p :: dictSet t k v) = p.1 :: keys (dictSet t k v) := rfl
      have hcons2 : keys (p :: t) = p.1 :: keys t := rfl
      rw [dictSet, if_neg hp, hcons, keys_dictSet k v t, hcons2]
      by_cases hm : k ∈ keys t
      · rw [if_pos hm, if_pos (by simp [hm])]
      · rw [if_neg hm, if_neg (by simp [hm, hne])]
        simp

lemma keys_dictModify {κ α : Type} [DecidableEq κ] (k : κ) (f : α → α) :
    ∀ l : List (κ × α), keys (dictModify l k f) = keys l
  | [] => rfl
  | p :: t => by
    by_cases hp : p.1 = k
    · simp [dictModify, hp, keys]
    · simp only [dictModify, if_neg hp, keys, List.map_cons, List.cons.injEq, true_and]
      exact keys_dictModify k f t

lemma keys_processStars (mid : Nat) (day : String) :
    ∀ (stars : List (String × Nat)) (st : BuildState),
      keys (processStars mid day st stars).leaderboard = keys st.leaderboard
  | [], _ => rfl
  | (s, ts) :: rest, st => by
    rw [processStars, keys_processStars mid day rest]
    exact keys_dictModify _ _ _

lemma keys_processDays (mid : Nat) :
    ∀ (cdl : List (String × List (String × Nat))) (st : BuildState),
      keys (processDays mid st cdl).leaderboard = keys st.leaderboard
  | [], _ => rfl
  | (day, stars) :: rest, st => by
    rw [processDays, keys_processDays mid rest]
    exact keys_processStars mid day stars st

lemma keys_processMember (st : BuildState) (m : Member) :
    keys (processMember st m).leaderboard =
      if m.id ∈ keys st.leaderboard then keys st.leaderboard
      else keys st.leaderboard ++ [m.id] := by
  unfold processMember
  rw [keys_processDays]
  exact keys_dictSet m.id _ st.leaderboard

lemma keys_foldl_processMember :
    ∀ (raw : List Member) (st : BuildState),
      (∀ m ∈ raw, m.id ∉ keys st.leaderboard) → (raw.map Member.id).Nodup →
      keys (raw.foldl processMember st).leaderboard = keys st.leaderboard ++ raw.map Member.id
  | [], st, _, _ => by simp
  | m :: rest, st, hdisj, hnd => by
    have hnd2 : (m.id :: rest.map Member.id).Nodup := by rw [List.map_cons] at hnd; exact hnd
    have hm : m.id ∉ keys st.leaderboard := hdisj m (by simp)
    have hkeys : keys (processMember st m).leaderboard = keys st.leaderboard ++ [m.id] := by
      rw [keys_processMember, if_neg hm]
    rw [List.foldl_cons, keys_foldl_processMember rest _ ?_ hnd2.of_cons, hkeys]
    · simp
    · intro x hx
      rw [hkeys]
      simp only [List.mem_append, List.mem_singleton, not_or]
      refine ⟨hdisj x (List.mem_cons_of_mem _ hx), ?_⟩
      intro he
      exact (List.nodup_cons.mp hnd2).1 (he ▸ List.mem_map_of_mem Member.id hx)

lemma keys_buildState (raw : List Member) (hnd : (raw.map Member.id).Nodup) :
    keys (buildState raw).leaderboard = raw.map Member.id := by
  unfold buildState
  rw [keys_foldl_processMember raw _ (by intro m _; simp [keys]) hnd]
  simp [keys]

lemma totalScore_dictModify_addScore (v : Nat) :
    ∀ (lb : List (Nat × Entry)) (mid : Nat), mid ∈ keys lb →
      totalScore (dictModify lb mid (addScore v)) = totalScore lb + v
  | [], mid, h => by simp [keys] at h
  | p :: t, mid, h => by
    by_cases hp : p.1 = mid
    · simp only [dictModify, if_pos hp, totalScore, List.map_cons, List.sum_cons, addScore]
      omega
    · have hm : mid ∈ keys t := by
        rcases (by simpa [keys] using h : mid = p.1 ∨ mid ∈ keys t) with he | hm
        · exact absurd he.symm hp
        · exact hm
      simp only [dictModify, if_neg hp, totalScore, List.map_cons, List.sum_cons]
      have := totalScore_dictModify_addScore v t mid hm
      simp only [totalScore] at this
      omega

lemma awardLoop_totalScore (M : Nat) :
    ∀ (g : List StarResult) (rank : Nat) (lb : List (Nat × Entry)),
      (∀ r ∈ g, r.member_id ∈ keys lb) →
      totalScore (awardLoop M rank lb g) = totalScore lb + awardTotal M rank g.length
  | [], rank, lb, _ => by simp [awardLoop, awardTotal]
  | r :: rs, rank, lb, h => by
    rw [awardLoop, List.length_cons, awardTotal]
    rw [awardLoop_totalScore M rs (rank + 1) _ ?_]
    · rw [totalScore_dictModify_addScore (M - rank) lb r.member_id (h r (by simp))]
      omega
    · intro x hx
      rw [keys_dictModify]
      exact h x (List.mem_cons_of_mem _ hx)

lemma insertByTime_perm (r : StarResult) :
    ∀ l : List StarResult, (insertByTime r l).Perm (r :: l)
  | [] => by simp [insertByTime]
  | y :: ys => by
    rw [insertByTime]
    by_cases hc : y.completion_time < r.completion_time
    · rw [if_pos hc]
      exact ((insertByTime_perm r ys).cons y).trans (List.Perm.swap r y ys)
    · rw [if_neg hc]

lemma sortByTime_perm : ∀ l : List StarResult, (sortByTime l).Perm l
  | [] => by simp [sortByTime]
  | r :: rs => (insertByTime_perm r (sortByTime rs)).trans ((sortByTime_perm rs).cons r)

lemma awardTotal_double :
    ∀ (n rank M : Nat), rank + n ≤ M →
      2 * awardTotal M rank n = n * (2 * (M - rank) + 1 - n)
  | 0, rank, M, _ => by simp [awardTotal]
  | n + 1, rank, M, h => by
    rw [awardTotal, Nat.mul_add, awardTotal_double n (rank + 1) M (by omega)]
    have h1 : rank ≤ M := by omega
    have h2 : rank + 1 ≤ M := by omega
    have h3 : n ≤ 2 * (M - (rank + 1)) + 1 := by omega
    have h4 : n + 1 ≤ 2 * (M - rank) + 1 := by omega
    zify [h1, h2, h3, h4]
    ring

lemma awardTotal_zero_eq (n M : Nat) (h : n ≤ M) :
    awardTotal M 0 n = n * M - n * (n - 1) / 2 := by
  have hdouble : 2 * awardTotal M 0 n = n * (2 * M + 1 - n) := by
    simpa using awardTotal_double n 0 M (by omega)
  have e7 : n * (n - 1) = n * n - n := by
    cases n with
    | zero => simp
    | succ m =>
      have : (m + 1) * (m + 1) = (m + 1) * m + (m + 1) := by ring
      simp only [Nat.add_sub_cancel]
      omega
  have hdvd : 2 ∣ n * (n - 1) := by
    rcases n with _ | m
    · simp
    · simpa [Nat.succ_sub_one, Nat.mul_comm] using (Nat.even_mul_succ_self m).two_dvd
  have e1 : 2 * (n * (n - 1) / 2) = n * (n - 1) := Nat.mul_div_cancel' hdvd
  have e5 : n * n ≤ 2 * (n * M) + n := by
    have := Nat.mul_le_mul_left n h
    omega
  have e3 : n ≤ 2 * M + 1 := by omega
  have e4 : n * (2 * M + 1 - n) = 2 * (n * M) + n - n * n := by
    zify [e3, e5]
    ring
  have e8 : n ≤ n * n := by
    rcases Nat.eq_zero_or_pos n with h0 | h0
    · simp [h0]
    · exact Nat.le_mul_of_pos_left n h0
  rw [e4] at hdouble
  omega

lemma collectGroup_ids_sublist (k : String × String) :
    ∀ raw : List Member,
      ((collectGroup k raw).map StarResult.member_id).Sublist (raw.map Member.id)
  | [] => by simp [collectGroup]
  | m :: rest => by
    rw [collectGroup, List.map_append, List.map_cons]
    rcases memberContrib_cases m k with h | ⟨ts, h⟩
    · rw [h]
      simpa using (collectGroup_ids_sublist k rest).cons m.id
    · rw [h]
      simpa using (collectGroup_ids_sublist k rest).cons₂ m.id

lemma parse_leaderboard_def (ig : List String) (raw : List Member) :
    (parse_raw_leaderboard_data ig raw).leaderboard =
      sortDescLB (scorePass ig (buildState raw).leaderboard.length
        (buildState raw).leaderboard (buildState raw).star_results) := rfl

lemma parse_daily_def (ig : List String) (raw : List Member) :
    (parse_raw_leaderboard_data ig raw).daily_stats =
      dailyStats (buildState raw).star_results := rfl

lemma scoreMap_dictSet (k : Nat) (e : Entry) :
    ∀ lb, scoreMap (dictSet lb k e) = dictSet (scoreMap lb) k e.score
  | [] => rfl
  | p :: t => by
    by_cases hp : p.1 = k
    · simp [dictSet, hp, scoreMap]
    · simp only [dictSet, if_neg hp, scoreMap, List.map_cons]
      exact congrArg _ (scoreMap_dictSet k e t)

lemma score_incStar (s : String) (e : Entry) : (incStar s e).score = e.score := by
  unfold incStar
  split_ifs <;> rfl

lemma scoreMap_dictModify_incStar (k : Nat) (s : String) :
    ∀ lb, scoreMap (dictModify lb k (incStar s)) = scoreMap lb
  | [] => rfl
  | p :: t => by
    by_cases hp : p.1 = k
    · simp [dictModify, hp, scoreMap, score_incStar]
    · simp only [dictModify, if_neg hp, scoreMap, List.map_cons, List.cons.injEq, true_and]
      exact scoreMap_dictModify_incStar k s t

lemma scoreMap_dictModify_addScore (k : Nat) (v : Nat) :
    ∀ lb, scoreMap (dictModify lb k (addScore v)) =
      dictModify (scoreMap lb) k (fun x => x + v)
  | [] => rfl
  | p :: t => by
    by_cases hp : p.1 = k
    · simp [dictModify, hp, scoreMap, addScore]
    · simp only [dictModify, if_neg hp, scoreMap, List.map_cons]
      exact congrArg _ (scoreMap_dictModify_addScore k v t)

lemma starsMap_dictModify_addScore (k : Nat) (v : Nat) :
    ∀ lb, starsMap (dictModify lb k (addScore v)) = starsMap lb
  | [] => rfl
  | p :: t => by
    by_cases hp : p.1 = k
    · simp [dictModify, hp, starsMap, addScore]
    · simp only [dictModify, if_neg hp, starsMap, List.map_cons, List.cons.injEq, true_and]
      exact starsMap_dictModify_addScore k v t

lemma alookup_scoreMap (k : Nat) :
    ∀ lb, alookup k (scoreMap lb) = (alookup k lb).map Entry.score
  | [] => rfl
  | p :: t => by
    by_cases hp : p.1 = k
    · simp [scoreMap, alookup, hp]
    · simp only [scoreMap, alookup, List.map_cons, if_neg hp]
      exact alookup_scoreMap k t

lemma alookup_starsMap (k : Nat) :
    ∀ lb, alookup k (starsMap lb) = (alookup k lb).map fun e => (e.star_1, e.star_2)
  | [] => rfl
  | p :: t => by
    by_cases hp : p.1 = k
    · simp [starsMap, alookup, hp]
    · simp only [starsMap, alookup, List.map_cons, if_neg hp]
      exact alookup_starsMap k t

lemma filterGroups_cons (ig : List String) (p : (String × String) × List StarResult)
    (t : List ((String × String) × List StarResult)) :
    filterGroups ig (p :: t) =
      if p.1.1 ∈ ig then filterGroups ig t else p :: filterGroups ig t := by
  by_cases hp : p.1.1 ∈ ig <;> simp [filterGroups, List.filter_cons, hp]

lemma filterGroups_addStarResult (ig : List String) (k : String × String) (r : StarResult) :
    ∀ gs, filterGroups ig (addStarResult gs k r) =
      if k.1 ∈ ig then filterGroups ig gs else addStarResult (filterGroups ig gs) k r
  | [] => by
    by_cases hk : k.1 ∈ ig <;>
      simp [addStarResult, filterGroups_cons, hk, filterGroups]
  | p :: t => by
    have ih := filterGroups_addStarResult ig k r t
    by_cases hk : k.1 ∈ ig
    · rw [if_pos hk] at ih ⊢
      rw [addStarResult]
      by_cases hp : p.1 = k
      · have hpig : p.1.1 ∈ ig := by rw [hp]; exact hk
        rw [if_pos hp]
        simp [filterGroups_cons, hpig]
      · rw [if_neg hp]
        by_cases hpig : p.1.1 ∈ ig <;> simp [filterGroups_cons, hpig, ih]
    · rw [if_neg hk] at ih ⊢
      rw [addStarResult]
      by_cases hp : p.1 = k
      · have hpig : p.1.1 ∉ ig := by rw [hp]; exact hk
        rw [if_pos hp]
        simp [filterGroups_cons, hpig, addStarResult, hp, hk]
      · rw [if_neg hp]
        by_cases hpig : p.1.1 ∈ ig
        · simp [filterGroups_cons, hpig, ih]
        · simp [filterGroups_cons, hpig, ih, addStarResult, hp]

lemma invDrop_processStars (ig : List String) (mid : Nat) (day : String) (hd : day ∉ ig) :
    ∀ (stars : List (String × Nat)) {st stF : BuildState}, InvDrop ig st stF →
      InvDrop ig (processStars mid day st stars) (processStars mid day stF stars)
  | [], _, _, h => h
  | (s, ts) :: rest, st, stF, h => by
    rw [processStars, processStars]
    apply invDrop_processStars ig mid day hd rest
    obtain ⟨h1, h2, h3⟩ := h
    refine ⟨?_, ?_, ?_⟩
    · show addStarResult stF.star_results (day, s) _ =
        filterGroups ig (addStarResult st.star_results (day, s) _)
      rw [filterGroups_addStarResult, if_neg hd, h1]
    · show scoreMap (dictModify stF.leaderboard mid (incStar s)) =
        scoreMap (dictModify st.leaderboard mid (incStar s))
      rw [scoreMap_dictModify_incStar, scoreMap_dictModify_incStar, h2]
    · show keys (dictModify stF.leaderboard mid (incStar s)) =
        keys (dictModify st.leaderboard mid (incStar s))
      rw [keys_dictModify, keys_dictModify, h3]

lemma invDrop_processStars_ignored (ig : List String) (mid : Nat) (day : String)
    (hd : day ∈ ig) :
    ∀ (stars : List (String × Nat)) {st stF : BuildState}, InvDrop ig st stF →
      InvDrop ig (processStars mid day st stars) stF
  | [], _, _, h => h
  | (s, ts) :: rest, st, stF, h => by
    rw [processStars]
    apply invDrop_processStars_ignored ig mid day hd rest
    obtain ⟨h1, h2, h3⟩ := h
    refine ⟨?_, ?_, ?_⟩
    · show stF.star_results = filterGroups ig (addStarResult st.star_results (day, s) _)
      rw [filterGroups_addStarResult, if_pos hd, h1]
    · show scoreMap stF.leaderboard = scoreMap (dictModify st.leaderboard mid (incStar s))
      rw [scoreMap_dictModify_incStar, h2]
    · show keys stF.leaderboard = keys (dictModify st.leaderboard mid (incStar s))
      rw [keys_dictModify, h3]

lemma invDrop_processDays (ig : List String) (mid : Nat) :
    ∀ (cdl : List (String × List (String × Nat))) {st stF : BuildState},
      InvDrop ig st stF →
      InvDrop ig (processDays mid st cdl)
        (processDays mid stF (cdl.filter fun q => decide (q.1 ∉ ig)))
  | [], _, _, h => h
  | (day, stars) :: rest, st, stF, h => by
    rw [processDays]
    by_cases hd : day ∈ ig
    · rw [List.filter_cons, if_neg (by simp [hd])]
      exact invDrop_processDays ig mid rest
        (invDrop_processStars_ignored ig mid day hd stars h)
    · rw [List.filter_cons, if_pos (by simp [hd]), processDays]
      exact invDrop_processDays ig mid rest (invDrop_processStars ig mid day hd stars h)

lemma invDrop_processMember (ig : List String) {st stF : BuildState} (m : Member)
    (h : InvDrop ig st stF) :
    InvDrop ig (processMember st m) (processMember stF (dropIgnored ig m)) := by
  unfold processMember dropIgnored
  apply invDrop_processDays
  obtain ⟨h1, h2, h3⟩ := h
  refine ⟨h1, ?_, ?_⟩
  · show scoreMap (dictSet stF.leaderboard m.id _) = scoreMap (dictSet st.leaderboard m.id _)
    rw [scoreMap_dictSet, scoreMap_dictSet, h2]
  · show keys (dictSet stF.leaderboard m.id _) = keys (dictSet st.leaderboard m.id _)
    rw [keys_dictSet, keys_dictSet, h3]

lemma invDrop_foldl (ig : List String) :
    ∀ (raw : List Member) {st stF : BuildState}, InvDrop ig st stF →
      InvDrop ig (raw.foldl processMember st)
        ((raw.map (dropIgnored ig)).foldl processMember stF)
  | [], _, _, h => h
  | m :: rest, st, stF, h => by
    rw [List.map_cons, List.foldl_cons, List.foldl_cons]
    exact invDrop_foldl ig rest (invDrop_processMember ig m h)

lemma invDrop_buildState (ig : List String) (raw : List Member) :
    InvDrop ig (buildState raw) (buildState (dropIgnoredRaw ig raw)) := by
  unfold buildState dropIgnoredRaw
  exact invDrop_foldl ig raw ⟨rfl, rfl, rfl⟩

lemma scorePass_eq_all (ig : List String) (M : Nat) :
    ∀ (gs : List ((String × String) × List StarResult)) (lb : List (Nat × Entry)),
      scorePass ig M lb gs = scorePassAll M lb (filterGroups ig gs)
  | [], lb => rfl
  | (k, results) :: rest, lb => by
    rw [scorePass]
    by_cases hk : k.1 ∈ ig
    · rw [if_pos hk, scorePass_eq_all ig M rest lb]
      congr 1
      simp [filterGroups, List.filter_cons, hk]
    · rw [if_neg hk, scorePass_eq_all ig M rest _]
      have hf : filterGroups ig ((k, results) :: rest) = (k, results) :: filterGroups ig rest := by
        simp [filterGroups, List.filter_cons, hk]
      rw [hf, scorePassAll]

lemma scoreMap_awardLoop (M : Nat) :
    ∀ (g : List StarResult) (rank : Nat) {lb1 lb2 : List (Nat × Entry)},
      scoreMap lb1 = scoreMap lb2 →
      scoreMap (awardLoop M rank lb1 g) = scoreMap (awardLoop M rank lb2 g)
  | [], _, _, _, h => h
  | r :: rs, rank, lb1, lb2, h => by
    rw [awardLoop, awardLoop]
    apply scoreMap_awardLoop M rs (rank + 1)
    rw [scoreMap_dictModify_addScore, scoreMap_dictModify_addScore, h]

lemma scoreMap_scorePassAll (M : Nat) :
    ∀ (gs : List ((String × String) × List StarResult)) {lb1 lb2 : List (Nat × Entry)},
      scoreMap lb1 = scoreMap lb2 →
      scoreMap (scorePassAll M lb1 gs) = scoreMap (scorePassAll M lb2 gs)
  | [], _, _, h => h
  | (k, results) :: rest, lb1, lb2, h => by
    rw [scorePassAll, scorePassAll]
    exact scoreMap_scorePassAll M rest (scoreMap_awardLoop M _ 0 h)

lemma keys_awardLoop (M : Nat) :
    ∀ (g : List StarResult) (rank : Nat) (lb : List (Nat × Entry)),
      keys (awardLoop M rank lb g) = keys lb
  | [], _, _ => rfl
  | r :: rs, rank, lb => by
    rw [awardLoop, keys_awardLoop M rs (rank + 1), keys_dictModify]

lemma keys_scorePassAll (M : Nat) :
    ∀ (gs : List ((String × String) × List StarResult)) (lb : List (Nat × Entry)),
      keys (scorePassAll M lb gs) = keys lb
  | [], _ => rfl
  | (k, results) :: rest, lb => by
    rw [scorePassAll, keys_scorePassAll M rest, applyGroup, keys_awardLoop]

lemma starsMap_awardLoop (M : Nat) :
    ∀ (g : List StarResult) (rank : Nat) (lb : List (Nat × Entry)),
      starsMap (awardLoop M rank lb g) = starsMap lb
  | [], _, _ => rfl
  | r :: rs, rank, lb => by
    rw [awardLoop, starsMap_awardLoop M rs (rank + 1), starsMap_dictModify_addScore]

lemma starsMap_scorePassAll (M : Nat) :
    ∀ (gs : List ((String × String) × List StarResult)) (lb : List (Nat × Entry)),
      starsMap (scorePassAll M lb gs) = starsMap lb
  | [], _ => rfl
  | (k, results) :: rest, lb => by
    rw [scorePassAll, starsMap_scorePassAll M rest, applyGroup, starsMap_awardLoop]

lemma nodup_keys_dictSet {κ α : Type} [DecidableEq κ] (k : κ) (v : α)
    (l : List (κ × α)) (h : (keys l).Nodup) : (keys (dictSet l k v)).Nodup := by
  rw [keys_dictSet]
  by_cases hm : k ∈ keys l
  · rwa [if_pos hm]
  · rw [if_neg hm]
    simp [List.nodup_append, h, hm]

lemma nodup_keys_foldl_processMember :
    ∀ (raw : List Member) (st : BuildState), (keys st.leaderboard).Nodup →
      (keys (raw.foldl processMember st).leaderboard).Nodup
  | [], _, h => h
  | m :: rest, st, h => by
    rw [List.foldl_cons]
    apply nodup_keys_foldl_processMember rest
    rw [keys_processMember]
    by_cases hm : m.id ∈ keys st.leaderboard
    · rwa [if_pos hm]
    · rw [if_neg hm]
      simp [List.nodup_append, h, hm]

lemma nodup_keys_buildState (raw : List Member) :
    (keys (buildState raw).leaderboard).Nodup :=
  nodup_keys_foldl_processMember raw ⟨[], []⟩ (by simp [keys])

lemma insertDescLB_perm (x : Nat × Entry) :
    ∀ l : List (Nat × Entry), (insertDescLB x l).Perm (x :: l)
  | [] => by simp [insertDescLB]
  | y :: ys => by
    rw [insertDescLB]
    by_cases hc : tupleGt (leaderboard_sorting_function y) (leaderboard_sorting_function x)
    · rw [if_pos hc]
      exact ((insertDescLB_perm x ys).cons y).trans (List.Perm.swap x y ys)
    · rw [if_neg hc]

lemma sortDescLB_perm : ∀ l : List (Nat × Entry), (sortDescLB l).Perm l
  | [] => by simp [sortDescLB]
  | x :: xs => (insertDescLB_perm x (sortDescLB xs)).trans ((sortDescLB_perm xs).cons x)

lemma alookup_perm {κ α : Type} [DecidableEq κ] (k : κ) {l1 l2 : List (κ × α)}
    (hp : l1.Perm l2) : (keys l1).Nodup → alookup k l1 = alookup k l2 := by
  induction hp with
  | nil => intro _; rfl
  | cons x hperm ih =>
    intro hnd
    by_cases hx : x.1 = k
    · simp [alookup, hx]
    · simp only [alookup, if_neg hx]
      exact ih ((List.nodup_cons.mp hnd).2)
  | swap x y l =>
    intro hnd
    have hxy : y.1 ≠ x.1 := by
      have := (List.nodup_cons.mp hnd).1
      intro he
      exact this (by simp [keys, he])
    by_cases hx : x.1 = k <;> by_cases hy : y.1 = k
    · exact absurd (hy.trans hx.symm) hxy
    · simp [alookup, hx, hy]
    · simp [alookup, hx, hy]
    · simp [alookup, hx, hy]
  | trans h1 h2 ih1 ih2 =>
    intro hnd
    refine (ih1 hnd).trans (ih2 ?_)
    have hkp : (keys _).Perm (keys _) := h1.map Prod.fst
    exact hkp.nodup_iff.mp hnd

lemma scoreOf_sortDescLB (lb : List (Nat × Entry)) (hnd : (keys lb).Nodup) (mid : Nat) :
    scoreOf (sortDescLB lb) mid = scoreOf lb mid := by
  unfold scoreOf
  rw [alookup_perm mid (sortDescLB_perm lb).symm hnd]

lemma starsOf_sortDescLB (lb : List (Nat × Entry)) (hnd : (keys lb).Nodup) (mid : Nat) :
    starsOf (sortDescLB lb) mid = starsOf lb mid := by
  unfold starsOf
  rw [alookup_perm mid (sortDescLB_perm lb).symm hnd]

/-- C3.  Completions on ignored days contribute zero score: any two raw
inputs that agree after removing ignored-day completions (i.e. differ only
in timestamps or presence of completions on ignored days) produce the same
score for every participant. -/
theorem c3_ignored_days_zero_score (ig : List String) (raw1 raw2 : List Member)
    (h : dropIgnoredRaw ig raw1 = dropIgnoredRaw ig raw2) (mid : Nat) :
    scoreOf (parse_raw_leaderboard_data ig raw1).leaderboard mid
      = scoreOf (parse_raw_leaderboard_data ig raw2).leaderboard mid := by
  have inv1 := invDrop_buildState ig raw1
  have inv2 := invDrop_buildState ig raw2
  rw [h] at inv1
  obtain ⟨g1, s1, k1⟩ := inv1
  obtain ⟨g2, s2, k2⟩ := inv2
  have hg : filterGroups ig (buildState raw1).star_results
      = filterGroups ig (buildState raw2).star_results := by rw [← g1, ← g2]
  have hs : scoreMap (buildState raw1).leaderboard
      = scoreMap (buildState raw2).leaderboard := by rw [← s1, ← s2]
  have hM : (buildState raw1).leaderboard.length = (buildState raw2).leaderboard.length := by
    have hl := congrArg List.length hs
    simpa [scoreMap] using hl
  have hscored : scoreMap (scorePass ig (buildState raw1).leaderboard.length
        (buildState raw1).leaderboard (buildState raw1).star_results)
      = scoreMap (scorePass ig (buildState raw2).leaderboard.length
        (buildState raw2).leaderboard (buildState raw2).star_results) := by
    rw [scorePass_eq_all, scorePass_eq_all, hg, hM]
    exact scoreMap_scorePassAll _ _ hs
  have hnd1 : (keys (scorePass ig (buildState raw1).leaderboard.length
      (buildState raw1).leaderboard (buildState raw1).star_results)).Nodup := by
    rw [scorePass_eq_all, keys_scorePassAll]
    exact nodup_keys_buildState raw1
  have hnd2 : (keys (scorePass ig (buildState raw2).leaderboard.length
      (buildState raw2).leaderboard (buildState raw2).star_results)).Nodup := by
    rw [scorePass_eq_all, keys_scorePassAll]
    exact nodup_keys_buildState raw2
  rw [parse_leaderboard_def, parse_leaderboard_def, scoreOf_sortDescLB _ hnd1 mid,
    scoreOf_sortDescLB _ hnd2 mid]
  unfold scoreOf
  have hlook := congrArg (alookup mid) hscored
  rwa [alookup_scoreMap, alookup_scoreMap] at hlook

theorem c3_ignored_days_zero_score_witness :
    dropIgnoredRaw ["3"] rawExtra = dropIgnoredRaw ["3"] rawExample ∧
    scoreOf (parse_raw_leaderboard_data ["3"] rawExtra).leaderboard 1
      = scoreOf (parse_raw_leaderboard_data ["3"] rawExample).leaderboard 1 :=
  ⟨by decide, c3_ignored_days_zero_score ["3"] rawExtra rawExample (by decide) 1⟩

lemma processStars_groupGet_ne (mid : Nat) (day d s : String) (hne : day ≠ d) :
    ∀ (stars : List (String × Nat)) (st : BuildState),
      groupGet (processStars mid day st stars).star_results (d, s) =
        groupGet st.star_results (d, s)
  | [], _ => rfl
  | (s2, ts) :: rest, st => by
    rw [processStars, processStars_groupGet_ne mid day d s hne rest]
    have hk : (d, s) ≠ (day, s2) := by
      intro h
      cases h
      exact hne rfl
    exact groupGet_addStarResult_ne hk _ _

lemma processDays_groupGet_ne (mid : Nat) (d s : String) :
    ∀ (cdl : List (String × List (String × Nat))) (st : BuildState),
      (∀ q ∈ cdl, q.1 ≠ d) →
      groupGet (processDays mid st cdl).star_results (d, s) =
        groupGet st.star_results (d, s)
  | [], _, _ => rfl
  | (day, stars) :: rest, st, h => by
    rw [processDays,
      processDays_groupGet_ne mid d s rest _ (fun q hq => h q (List.mem_cons_of_mem _ hq)),
      processStars_groupGet_ne mid day d s (h (day, stars) (by simp)) stars]

lemma foldl_groupGet_ne (d s : String) :
    ∀ (raw : List Member) (st : BuildState),
      (∀ m ∈ raw, ∀ q ∈ m.completion_day_level, q.1 ≠ d) →
      groupGet ((raw.foldl processMember st)).star_results (d, s) =
        groupGet st.star_results (d, s)
  | [], _, _ => rfl
  | m :: rest, st, h => by
    rw [List.foldl_cons,
      foldl_groupGet_ne d s rest _ (fun x hx => h x (List.mem_cons_of_mem _ hx))]
    unfold processMember
    exact processDays_groupGet_ne m.id d s m.completion_day_level _ (h m (by simp))

lemma buildState_groupGet_ne (raw : List Member) (d s : String)
    (h : ∀ m ∈ raw, ∀ q ∈ m.completion_day_level, q.1 ≠ d) :
    groupGet (buildState raw).star_results (d, s) = [] := by
  unfold buildState
  rw [foldl_groupGet_ne d s raw _ h]
  rfl

/-- C10.  The ignored-day list affects only the rank scores: the per-day
stats are identical with or without an ignored list (and their keys are
exactly `"1"` .. `"25"`), the `star_1`/`star_2` counters of every
participant are identical with or without an ignored list (so ignored-day
completions still count toward the tie-breaker), and a daily-stats entry
for a day with no completions in the raw data is `(0, 0)`. -/
theorem c10_ignored_days_still_counted (ig : List String) (raw : List Member) :
    (parse_raw_leaderboard_data ig raw).daily_stats.map Prod.fst
        = (List.range' 1 25).map Nat.repr ∧
    (parse_raw_leaderboard_data ig raw).daily_stats
        = (parse_raw_leaderboard_data [] raw).daily_stats ∧
    (∀ mid, starsOf (parse_raw_leaderboard_data ig raw).leaderboard mid
        = starsOf (parse_raw_leaderboard_data [] raw).leaderboard mid) ∧
    ∀ p ∈ (parse_raw_leaderboard_data ig raw).daily_stats,
      (∀ m ∈ raw, ∀ q ∈ m.completion_day_level, q.1 ≠ p.1) →
      p.2 = ⟨0, 0⟩ := by
  refine ⟨?_, ?_, ?_, ?_⟩
  · rw [parse_daily_def]
    simp [dailyStats, List.map_map, Function.comp]
  · rw [parse_daily_def, parse_daily_def]
  · intro mid
    have hnd1 : (keys (scorePass ig (buildState raw).leaderboard.length
        (buildState raw).leaderboard (buildState raw).star_results)).Nodup := by
      rw [scorePass_eq_all, keys_scorePassAll]
      exact nodup_keys_buildState raw
    have hnd2 : (keys (scorePass [] (buildState raw).leaderboard.length
        (buildState raw).leaderboard (buildState raw).star_results)).Nodup := by
      rw [scorePass_eq_all, keys_scorePassAll]
      exact nodup_keys_buildState raw
    rw [parse_leaderboard_def, parse_leaderboard_def, starsOf_sortDescLB _ hnd1 mid,
      starsOf_sortDescLB _ hnd2 mid]
    have hstars : starsMap (scorePass ig (buildState raw).leaderboard.length
          (buildState raw).leaderboard (buildState raw).star_results)
        = starsMap (scorePass [] (buildState raw).leaderboard.length
          (buildState raw).leaderboard (buildState raw).star_results) := by
      rw [scorePass_eq_all, scorePass_eq_all, starsMap_scorePassAll, starsMap_scorePassAll]
    unfold starsOf
    have hlook := congrArg (alookup mid) hstars
    rwa [alookup_starsMap, alookup_starsMap] at hlook
  · intro p hp hnone
    rw [parse_daily_def] at hp
    unfold dailyStats at hp
    obtain ⟨d, hd, rfl⟩ := List.mem_map.mp hp
    have h1 : groupGet (buildState raw).star_results (Nat.repr d, "1") = [] :=
      buildState_groupGet_ne raw _ "1" hnone
    have h2 : groupGet (buildState raw).star_results (Nat.repr d, "2") = [] :=
      buildState_groupGet_ne raw _ "2" hnone
    simp [h1, h2]

theorem c10_ignored_days_still_counted_witness :
    (("2", (⟨0, 0⟩ : DayStat)) ∈ (parse_raw_leaderboard_data ["1"] rawExample).daily_stats) ∧
    starsOf (parse_raw_leaderboard_data ["1"] rawExample).leaderboard 1
      = starsOf (parse_raw_leaderboard_data [] rawExample).leaderboard 1 ∧
    ("2", (⟨0, 0⟩ : DayStat)).2 = (⟨0, 0⟩ : DayStat) :=
  ⟨by decide, (c10_ignored_days_still_counted ["1"] rawExample).2.2.1 1,
    (c10_ignored_days_still_counted ["1"] rawExample).2.2.2 _ (by decide) (by decide)⟩

lemma string_ext {a b : String} (h : a.data = b.data) : a = b :=
  congrArg String.mk h

lemma data_ne_nil {s : String} (h : s ≠ "") : s.data ≠ [] := by
  intro hd
  exact h (string_ext (by simpa using hd))

lemma ite_ne_nl {c : Prop} [Decidable c] {a b : Char} (ha : a ≠ '\n') (hb : b ≠ '\n') :
    (if c then a else b) ≠ '\n' := by
  split
  · exact ha
  · exact hb

lemma digitChar_ne_nl (d : Nat) : Nat.digitChar d ≠ '\n' := by
  unfold Nat.digitChar
  repeat' apply ite_ne_nl
  all_goals decide

lemma toDigitsCore_no_nl (b : Nat) :
    ∀ (fuel n : Nat) (ds : List Char), (∀ c ∈ ds, c ≠ '\n') →
      ∀ c ∈ Nat.toDigitsCore b fuel n ds, c ≠ '\n' := by
  intro fuel
  induction fuel with
  | zero =>
    intro n ds h
    rw [Nat.toDigitsCore.eq_1]
    exact h
  | succ fuel ih =>
    intro n ds h
    rw [Nat.toDigitsCore.eq_2]
    have hd : ∀ c ∈ (n % b).digitChar :: ds, c ≠ '\n' := by
      intro c hc
      rcases List.mem_cons.mp hc with rfl | hm
      · exact digitChar_ne_nl _
      · exact h c hm
    split
    · exact hd
    · exact ih (n / b) _ hd

lemma noNlS_repr (n : Nat) : NoNlS (Nat.repr n) := by
  intro h
  exact toDigitsCore_no_nl 10 (n + 1) n [] (by simp) '\n' h rfl

lemma noNlS_append {a b : String} (ha : NoNlS a) (hb : NoNlS b) : NoNlS (a ++ b) := by
  unfold NoNlS at *
  rw [String.data_append]
  simp only [List.mem_append, not_or]
  exact ⟨ha, hb⟩

lemma noNlS_mk {l : List Char} (h : ∀ c ∈ l, c ≠ '\n') : NoNlS (String.mk l) := by
  intro hm
  exact h '\n' hm rfl

lemma noNlS_replicate (n : Nat) {c : Char} (hc : c ≠ '\n') :
    NoNlS (String.mk (List.replicate n c)) :=
  noNlS_mk fun d hd => (List.eq_of_mem_replicate hd) ▸ hc

lemma noNlS_padLeft (w : Nat) {s : String} (h : NoNlS s) : NoNlS (padLeft w s) :=
  noNlS_append (noNlS_replicate _ (by decide)) h

lemma noNlS_padRight (w : Nat) {s : String} (h : NoNlS s) : NoNlS (padRight w s) :=
  noNlS_append h (noNlS_replicate _ (by decide))

lemma noNlS_pyTruncate (w : Nat) {s : String} (h : NoNlS s) : NoNlS (pyTruncate w s) := by
  intro hm
  exact h (List.take_subset w s.data hm)

lemma noNlS_aocTableLine {a b c d : String}
    (ha : NoNlS a) (hb : NoNlS b) (hc : NoNlS c) (hd : NoNlS d) :
    NoNlS (aocTableLine a b c d) := by
  unfold aocTableLine
  exact noNlS_append (noNlS_append (noNlS_append (noNlS_append (noNlS_append
    (noNlS_append (noNlS_padLeft 4 ha) (by decide)) (noNlS_padRight 25 (noNlS_pyTruncate 25 hb)))
    (by decide)) (noNlS_padLeft 5 hc)) (by decide)) hd

lemma noNlS_of_lineSafe {s : String} (h : LineSafe s) : NoNlS s := by
  intro hm
  exact h '\n' hm (by decide)

lemma noNlS_entryLine (rank : Nat) (e : Entry) (h : LineSafe e.name) :
    NoNlS (entryLine rank e) := by
  unfold entryLine
  refine noNlS_aocTableLine (noNlS_repr _) (noNlS_of_lineSafe h) (noNlS_repr _) ?_
  exact noNlS_append (noNlS_append (noNlS_append (noNlS_append (by decide) (noNlS_repr _))
    (by decide)) (noNlS_repr _)) (by decide)

lemma aocTableLine_ne_empty (a b c d : String) : aocTableLine a b c d ≠ "" := by
  intro h
  have hl := congrArg String.length h
  have h3 : (" | " : String).length = 3 := rfl
  simp only [aocTableLine, String.length_append, h3] at hl
  simp at hl

lemma entryLine_ne_empty (rank : Nat) (e : Entry) : entryLine rank e ≠ "" :=
  aocTableLine_ne_empty _ _ _ _

lemma splitNl_ne_nil : ∀ l : List Char, splitNl l ≠ []
  | [] => by simp [splitNl]
  | c :: cs => by
    rw [splitNl]
    by_cases hc : c = '\n'
    · simp [hc]
    · rw [if_neg hc]
      rcases h : splitNl cs with _ | ⟨l, ls⟩ <;> simp

lemma splitNl_no_nl : ∀ l : List Char, '\n' ∉ l → splitNl l = [l]
  | [], _ => rfl
  | c :: cs, h => by
    have hc : ¬ c = '\n' := fun he => h (by simp [he])
    have hcs : '\n' ∉ cs := fun hm => h (List.mem_cons_of_mem _ hm)
    rw [splitNl, if_neg hc, splitNl_no_nl cs hcs]

lemma splitNl_append : ∀ (l1 l2 : List Char), '\n' ∉ l1 →
    splitNl (l1 ++ '\n' :: l2) = l1 :: splitNl l2
  | [], l2, _ => by simp [splitNl]
  | c :: cs, l2, h => by
    have hc : ¬ c = '\n' := fun he => h (by simp [he])
    have hcs : '\n' ∉ cs := fun hm => h (List.mem_cons_of_mem _ hm)
    rw [List.cons_append, splitNl, if_neg hc, splitNl_append cs l2 hcs]

lemma joinNl_cons_cons (s s2 : String) (rest : List String) :
    joinNl (s :: s2 :: rest) = s ++ "\n" ++ joinNl (s2 :: rest) := rfl

lemma splitNl_joinNl : ∀ ls : List String, ls ≠ [] → (∀ s ∈ ls, NoNlS s) →
    splitNl (joinNl ls).data = ls.map String.data
  | [], h, _ => absurd rfl h
  | [s], _, h1 => by
    show splitNl s.data = [s.data]
    exact splitNl_no_nl s.data (h1 s (by simp))
  | s :: s2 :: rest, _, h1 => by
    rw [joinNl_cons_cons]
    have hdata : (s ++ "\n" ++ joinNl (s2 :: rest)).data
        = s.data ++ '\n' :: (joinNl (s2 :: rest)).data := by
      rw [String.data_append, String.data_append]
      simp
    rw [hdata, splitNl_append _ _ (h1 s (by simp)),
      splitNl_joinNl (s2 :: rest) (by simp) (fun x hx => h1 x (List.mem_cons_of_mem _ hx))]
    rfl

lemma mem_of_getLast {α : Type} : ∀ {l : List α} {a : α}, l.getLast? = some a → a ∈ l
  | [], a, h => by simp [List.getLast?] at h
  | [x], a, h => by
    simp only [List.getLast?_singleton, Option.some.injEq] at h
    simp [h]
  | x :: y :: t, a, h => by
    rw [List.getLast?_cons_cons] at h
    exact List.mem_cons_of_mem _ (mem_of_getLast h)

lemma splitlines_joinNl (ls : List String) (h0 : ls ≠ [])
    (h1 : ∀ s ∈ ls, NoNlS s) (h2 : ∀ s ∈ ls, s ≠ "") :
    splitlines (joinNl ls) = ls := by
  unfold splitlines
  rw [splitNl_joinNl ls h0 h1]
  show (if (ls.map String.data).getLast? = some [] then (ls.map String.data).dropLast
      else ls.map String.data).map String.mk = ls
  rw [List.getLast?_map]
  have hcond : ¬ (Option.map String.data ls.getLast? = some []) := by
    intro hc
    rcases hopt : ls.getLast? with _ | x
    · rw [hopt] at hc
      exact Option.noConfusion hc
    · rw [hopt] at hc
      exact data_ne_nil (h2 x (mem_of_getLast hopt)) (Option.some.inj hc)
  rw [if_neg hcond, List.map_map]
  have hid : (String.mk ∘ String.data) = id := by
    funext s
    rfl
  rw [hid, List.map_id]

lemma entryLines_length : ∀ (rank : Nat) (l : List Entry),
    (entryLines rank l).length = l.length
  | _, [] => rfl
  | rank, e :: rest => by
    rw [entryLines, List.length_cons, List.length_cons, entryLines_length (rank + 1) rest]

lemma mem_entryLines : ∀ {s : String} {rank : Nat} {l : List Entry},
    s ∈ entryLines rank l → ∃ r e, e ∈ l ∧ s = entryLine r e := by
  intro s rank l
  induction l generalizing rank with
  | nil => intro h; simp [entryLines] at h
  | cons e rest ih =>
    intro h
    rw [entryLines] at h
    rcases List.mem_cons.mp h with rfl | hm
    · exact ⟨rank, e, by simp, rfl⟩
    · obtain ⟨r, e2, he2, hs⟩ := ih hm
      exact ⟨r, e2, List.mem_cons_of_mem _ he2, hs⟩

lemma format_eq_joinNl (lb : List (Nat × Entry)) :
    format_leaderboard lb
      = joinNl (headerFirstLine :: dashLine :: entryLines 1 (lb.map Prod.snd)) := by
  unfold format_leaderboard HEADER
  cases entryLines 1 (lb.map Prod.snd) with
  | nil => rfl
  | cons e rest =>
    apply string_ext
    rw [joinNl_cons_cons, joinNl_cons_cons, joinNl_cons_cons]
    simp [String.data_append]

lemma splitlines_format (lb : List (Nat × Entry))
    (hnames : ∀ p ∈ lb, LineSafe p.2.name) :
    splitlines (format_leaderboard lb)
      = headerFirstLine :: dashLine :: entryLines 1 (lb.map Prod.snd) := by
  have hmem : ∀ s ∈ headerFirstLine :: dashLine :: entryLines 1 (lb.map Prod.snd),
      NoNlS s ∧ s ≠ "" := by
    intro s hs
    rcases List.mem_cons.mp hs with rfl | hs2
    · exact ⟨by decide, by decide⟩
    rcases List.mem_cons.mp hs2 with rfl | hs3
    · exact ⟨by decide, by decide⟩
    obtain ⟨r, e, he, rfl⟩ := mem_entryLines hs3
    obtain ⟨p, hp, rfl⟩ := List.mem_map.mp he
    exact ⟨noNlS_entryLine r p.2 (hnames p hp), entryLine_ne_empty r p.2⟩
  rw [format_eq_joinNl]
  exact splitlines_joinNl _ (by simp) (fun s hs => (hmem s hs).1) (fun s hs => (hmem s hs).2)

/-- C7.  The formatted full table consists of the two header lines followed
by one line per leaderboard entry (so its line count is
`HEADER_LINES + number of entries` with `HEADER_LINES = 2`), and the lines
of the "top" view produced by `_get_top_leaderboard` are exactly the first
`HEADER_LINES + N` lines of the full table, for the configured
displayed-member count `N`.  The hypothesis excludes participant names
containing line-break characters, for which Python `str.splitlines` would
cut extra lines. -/
theorem c7_formatter_line_counts (N : Nat) (lb : List (Nat × Entry))
    (hnames : ∀ p ∈ lb, LineSafe p.2.name) :
    HEADER_LINES = 2 ∧
    (splitlines (format_leaderboard lb)).length = HEADER_LINES + lb.length ∧
    splitlines (get_top_leaderboard N (format_leaderboard lb))
      = (splitlines (format_leaderboard lb)).take (TOP_LEADERBOARD_LINES N) := by
  have hsp := splitlines_format lb hnames
  have hH : HEADER_LINES = 2 := by decide
  refine ⟨hH, ?_, ?_⟩
  · rw [hsp, hH, List.length_cons, List.length_cons, entryLines_length, List.length_map]
    omega
  · have hmem : ∀ s ∈ headerFirstLine :: dashLine :: entryLines 1 (lb.map Prod.snd),
        NoNlS s ∧ s ≠ "" := by
      intro s hs
      rcases List.mem_cons.mp hs with rfl | hs2
      · exact ⟨by decide, by decide⟩
      rcases List.mem_cons.mp hs2 with rfl | hs3
      · exact ⟨by decide, by decide⟩
      obtain ⟨r, e, he, rfl⟩ := mem_entryLines hs3
      obtain ⟨p, hp, rfl⟩ := List.mem_map.mp he
      exact ⟨noNlS_entryLine r p.2 (hnames p hp), entryLine_ne_empty r p.2⟩
    unfold get_top_leaderboard
    rw [hsp]
    apply splitlines_joinNl
    · intro htake
      rcases List.take_eq_nil_iff.mp htake with h0 | h0
      · unfold TOP_LEADERBOARD_LINES at h0
        omega
      · exact List.cons_ne_nil _ _ h0
    · intro s hs
      exact (hmem s (List.take_subset _ _ hs)).1
    · intro s hs
      exact (hmem s (List.take_subset _ _ hs)).2

theorem c7_formatter_line_counts_witness :
    (∀ p ∈ (parse_raw_leaderboard_data [] rawExample).leaderboard, LineSafe p.2.name) ∧
    (HEADER_LINES = 2 ∧
      (splitlines (format_leaderboard (parse_raw_leaderboard_data [] rawExample).leaderboard)).length
        = HEADER_LINES + (parse_raw_leaderboard_data [] rawExample).leaderboard.length ∧
      splitlines (get_top_leaderboard 1
          (format_leaderboard (parse_raw_leaderboard_data [] rawExample).leaderboard))
        = (splitlines (format_leaderboard
            (parse_raw_leaderboard_data [] rawExample).leaderboard)).take
            (TOP_LEADERBOARD_LINES 1)) :=
  ⟨by decide, c7_formatter_line_counts 1 (parse_raw_leaderboard_data [] rawExample).leaderboard
    (by decide)⟩

/-- C1, amended.  For a `(day, star)` group of the transposed data with the
day not ignored and no tied completion timestamps, the rank scores awarded
by the score pass for that star total `N * M - N * (N - 1) / 2`, where `N`
is the number of participants with a record for that star and `M` is
`max_score`, the total participant count (the code awards `M - rank`, not
`N - rank`): applied to any leaderboard dict keyed by the participants, the
group's award loop raises the total score by exactly that amount. -/
theorem c1_star_score_sum (ig : List String) (raw : List Member) (hwf : RawWF raw)
    (day star : String) (hday : day ∉ ig)
    (hties : (groupGet (buildState raw).star_results (day, star)).Pairwise
      (fun a b => a.completion_time ≠ b.completion_time))
    (lb : List (Nat × Entry)) (hlb : keys lb = raw.map Member.id) :
    totalScore (applyGroup (buildState raw).leaderboard.length lb
        (groupGet (buildState raw).star_results (day, star)))
      = totalScore lb
        + ((groupGet (buildState raw).star_results (day, star)).length
            * (buildState raw).leaderboard.length
          - (groupGet (buildState raw).star_results (day, star)).length
            * ((groupGet (buildState raw).star_results (day, star)).length - 1) / 2) := by
  set g := groupGet (buildState raw).star_results (day, star) with hg
  set M := (buildState raw).leaderboard.length with hM
  have hgs : g = collectGroup (day, star) raw := by
    rw [hg, buildState_groupGet raw _ hwf.2]
  have hsub : (g.map StarResult.member_id).Sublist (raw.map Member.id) := by
    rw [hgs]
    exact collectGroup_ids_sublist _ raw
  have hkeysb : keys (buildState raw).leaderboard = raw.map Member.id :=
    keys_buildState raw hwf.1
  have hMlen : M = raw.length := by
    have h1 : (buildState raw).leaderboard.length = raw.length := by
      have := congrArg List.length hkeysb
      simpa [keys] using this
    rw [hM, h1]
  have hn : g.length ≤ M := by
    have h2 := hsub.length_le
    simp only [List.length_map] at h2
    omega
  have hmem : ∀ r ∈ sortByTime g, r.member_id ∈ keys lb := by
    intro r hr
    have hr2 : r ∈ g := (sortByTime_perm g).mem_iff.mp hr
    rw [hlb]
    exact hsub.subset (List.mem_map_of_mem _ hr2)
  unfold applyGroup
  rw [awardLoop_totalScore M (sortByTime g) 0 lb hmem, (sortByTime_perm g).length_eq,
    awardTotal_zero_eq g.length M hn]

theorem c1_star_score_sum_witness :
    totalScore (applyGroup (buildState rawExample).leaderboard.length
        (buildState rawExample).leaderboard
        (groupGet (buildState rawExample).star_results ("1", "1")))
      = totalScore (buildState rawExample).leaderboard
        + ((groupGet (buildState rawExample).star_results ("1", "1")).length
            * (buildState rawExample).leaderboard.length
          - (groupGet (buildState rawExample).star_results ("1", "1")).length
            * ((groupGet (buildState rawExample).star_results ("1", "1")).length - 1) / 2) :=
  c1_star_score_sum [] rawExample (by decide) "1" "1" (by decide) (by decide)
    (buildState rawExample).leaderboard (by decide)

lemma leaderboard_request_ok (url : String) (r : Resp) :
    leaderboard_request url (.ok r) =
      if r.url ≠ url then .error .unexpectedRedirect
      else if r.status ≠ 200 then .error (.unexpectedStatus r.status)
      else .ok r.body := rfl

lemma leaderboard_request_error (url : String) (e : Unit) :
    leaderboard_request url (.error e) = .error .clientError := rfl

lemma fetchBoard_false (oracle : String → Except Unit Resp) (url fallback s : String) :
    fetchBoard oracle url fallback s false =
      (match leaderboard_request url (oracle s) with
      | .ok d => ([s], .ok d)
      | .error .unexpectedRedirect =>
        if s = fallback then ([s], .error ())
        else
          match leaderboard_request url (oracle fallback) with
          | .ok d => ([s, fallback], .ok d)
          | .error _ => ([s, fallback], .error ())
      | .error _ => ([s], .error ())) := rfl

lemma fetchAllLoop_error (oracle : Nat → String → Except Unit Resp) (year : Nat)
    (fallback : String) :
    ∀ (boards : List LeaderboardCfg) (parts : List (String × Member))
      (counts : List (Nat × Nat)) (b : LeaderboardCfg), b ∈ boards →
      (fetchBoard (oracle b.id) (aocApiUrl year b.id) fallback b.session false).2 = .error () →
      fetchAllLoop oracle year fallback boards parts counts = .error ()
  | [], _, _, b, hb, _ => absurd hb (List.not_mem_nil b)
  | b0 :: rest, parts, counts, b, hb, herr => by
    rw [fetchAllLoop]
    rcases hf : fetchBoard (oracle b0.id) (aocApiUrl year b0.id) fallback b0.session false
      with ⟨att, res⟩
    rcases res with _ | d
    · simp
    · rcases List.mem_cons.mp hb with rfl | hmem
      · rw [hf] at herr
        exact absurd herr (by simp)
      · simp only
        exact fetchAllLoop_error oracle year fallback rest _ _ b hmem herr

/-- C4.  The per-source fetch is a primary/fallback state machine: a silent
redirect (response URL differs from the requested URL) on the primary
session cookie triggers exactly one retry with the fallback cookie (the
attempted-cookie list is `[primary, fallback]`), whose outcome decides the
board; a redirect on the fallback, a non-200 status, or a transport-level
error each abort with `FetchingLeaderboardFailed` (`.error ()`) and no
further attempt; and a failing board aborts the entire multi-board fetch. -/
theorem c4_fetch_fallback_state_machine (oracle : String → Except Unit Resp)
    (url primary fallback : String) (hne : primary ≠ fallback) :
    (∀ r1 r2, oracle primary = .ok r1 → r1.url ≠ url →
      oracle fallback = .ok r2 → r2.url = url → r2.status = 200 →
      fetchBoard oracle url fallback primary false = ([primary, fallback], .ok r2.body)) ∧
    (∀ r1 r2, oracle primary = .ok r1 → r1.url ≠ url →
      oracle fallback = .ok r2 → r2.url ≠ url →
      fetchBoard oracle url fallback primary false = ([primary, fallback], .error ())) ∧
    (∀ r1, oracle primary = .ok r1 → r1.url = url → r1.status ≠ 200 →
      fetchBoard oracle url fallback primary false = ([primary], .error ())) ∧
    (oracle primary = .error () →
      fetchBoard oracle url fallback primary false = ([primary], .error ())) ∧
    (∀ (oracleAll : Nat → String → Except Unit Resp) (year : Nat)
        (boards : List LeaderboardCfg) (b : LeaderboardCfg), b ∈ boards →
      (fetchBoard (oracleAll b.id) (aocApiUrl year b.id) fallback b.session false).2
        = .error () →
      fetch_leaderboard_data oracleAll year fallback boards = .error ()) := by
  refine ⟨?_, ?_, ?_, ?_, ?_⟩
  · intro r1 r2 h1 hu1 h2 hu2 hs2
    have e1 : leaderboard_request url (oracle primary) = .error .unexpectedRedirect := by
      rw [h1, leaderboard_request_ok, if_pos hu1]
    have e2 : leaderboard_request url (oracle fallback) = .ok r2.body := by
      rw [h2, leaderboard_request_ok, if_neg (not_not_intro hu2),
        if_neg (not_not_intro hs2)]
    rw [fetchBoard_false]
    simp only [e1, e2, if_neg hne]
  · intro r1 r2 h1 hu1 h2 hu2
    have e1 : leaderboard_request url (oracle primary) = .error .unexpectedRedirect := by
      rw [h1, leaderboard_request_ok, if_pos hu1]
    have e2 : leaderboard_request url (oracle fallback) = .error .unexpectedRedirect := by
      rw [h2, leaderboard_request_ok, if_pos hu2]
    rw [fetchBoard_false]
    simp only [e1, e2, if_neg hne]
  · intro r1 h1 hu1 hs1
    have e1 : leaderboard_request url (oracle primary)
        = .error (.unexpectedStatus r1.status) := by
      rw [h1, leaderboard_request_ok, if_neg (not_not_intro hu1), if_pos hs1]
    rw [fetchBoard_false]
    simp only [e1]
  · intro h1
    have e1 : leaderboard_request url (oracle primary) = .error .clientError := by
      rw [h1, leaderboard_request_error]
    rw [fetchBoard_false]
    simp only [e1]
  · intro oracleAll year boards b hb herr
    exact fetchAllLoop_error oracleAll year fallback boards [] [] b hb herr

theorem c4_fetch_fallback_state_machine_witness :
    fetchBoard
        (fun c => if c = "primary" then Except.ok ⟨"elsewhere", 200, ⟨[]⟩⟩
          else Except.ok ⟨"good-url", 200, ⟨[]⟩⟩)
        "good-url" "fb" "primary" false
      = (["primary", "fb"], .ok (⟨"good-url", 200, ⟨[]⟩⟩ : Resp).body) :=
  (c4_fetch_fallback_state_machine
      (fun c => if c = "primary" then Except.ok ⟨"elsewhere", 200, ⟨[]⟩⟩
        else Except.ok ⟨"good-url", 200, ⟨[]⟩⟩)
      "good-url" "primary" "fb" (by decide)).1
    ⟨"elsewhere", 200, ⟨[]⟩⟩ ⟨"good-url", 200, ⟨[]⟩⟩ rfl (by decide) rfl rfl rfl

lemma foldl_min_mem :
    ∀ (xs : List (Nat × Nat)) (x : Nat × Nat),
      xs.foldl (fun acc y => if y.2 < acc.2 then y else acc) x ∈ x :: xs
  | [], x => by simp
  | y :: ys, x => by
    rw [List.foldl_cons]
    have h := foldl_min_mem ys (if y.2 < x.2 then y else x)
    rcases List.mem_cons.mp h with he | hm
    · rw [he]
      split
      · simp
      · simp
    · simp [hm]

lemma minBySnd_mem {l : List (Nat × Nat)} {p : Nat × Nat} (h : minBySnd l = some p) :
    p ∈ l := by
  cases l with
  | nil => exact Option.noConfusion h
  | cons x xs =>
    have h2 := Option.some.inj h
    have := foldl_min_mem xs x
    rwa [h2] at this

lemma alookup_mem {κ α : Type} [DecidableEq κ] {k : κ} :
    ∀ {l : List (κ × α)} {v : α}, alookup k l = some v → (k, v) ∈ l
  | [], v, h => Option.noConfusion h
  | p :: t, v, h => by
    rw [alookup] at h
    by_cases hp : p.1 = k
    · rw [if_pos hp] at h
      have hv := Option.some.inj h
      have : (k, v) = p := by
        rw [← hp, ← hv]
      rw [this]
      simp
    · rw [if_neg hp] at h
      exact List.mem_cons_of_mem _ (alookup_mem h)

lemma alookup_of_mem_keys {κ α : Type} [DecidableEq κ] {k : κ} :
    ∀ {l : List (κ × α)}, k ∈ keys l → ∃ v, alookup k l = some v
  | [], h => by simp [keys] at h
  | p :: t, h => by
    by_cases hp : p.1 = k
    · exact ⟨p.2, by rw [alookup, if_pos hp]⟩
    · have hm : k ∈ keys t := by
        rcases (by simpa [keys] using h : k = p.1 ∨ k ∈ List.map Prod.fst t) with he | hm
        · exact absurd he.symm hp
        · exact hm
      obtain ⟨v, hv⟩ := alookup_of_mem_keys hm
      refine ⟨v, ?_⟩
      rw [alookup, if_neg hp]
      exact hv

lemma assignNewBoard_some (boards : List (Nat × String)) (author : Nat) (st : JoinState)
    (counts1 : List (Nat × Nat)) (best : Nat × Nat) (hmin : minBySnd counts1 = some best) :
    assignNewBoard boards author st counts1 =
      if 200 ≤ (alookup best.1 counts1).getD 0 then .ok (none, st)
      else
        match alookup best.1 boards with
        | some code =>
          .ok (some code, { st with assigned := dictSet st.assigned author best.1 })
        | none => .error () := by
  unfold assignNewBoard
  rw [hmin]

lemma assignNewBoard_full (boards : List (Nat × String)) (author : Nat) (st : JoinState)
    (counts1 : List (Nat × Nat)) (hne : counts1 ≠ [])
    (hfull : ∀ p ∈ counts1, 200 ≤ p.2) :
    assignNewBoard boards author st counts1 = .ok (none, st) := by
  rcases hmin : minBySnd counts1 with _ | best
  · cases counts1 with
    | nil => exact absurd rfl hne
    | cons x xs => exact Option.noConfusion hmin
  · have hbm : best ∈ counts1 := minBySnd_mem hmin
    have hbk : best.1 ∈ keys counts1 := List.mem_map_of_mem Prod.fst hbm
    obtain ⟨v, hv⟩ := alookup_of_mem_keys hbk
    have hge : 200 ≤ v := hfull (best.1, v) (alookup_mem hv)
    rw [assignNewBoard_some boards author st counts1 best hmin, hv]
    simp only [Option.getD_some]
    rw [if_pos hge]

lemma gpjc_none (staffId : Nat) (boards : List (Nat × String))
    (refetched : List (Nat × Nat)) (author : Nat) (st : JoinState)
    (hb : alookup author st.assigned = none) :
    get_public_join_code staffId boards refetched author st =
      assignNewBoard boards author st
        (if (dictPop st.counts staffId).isEmpty then refetched
          else dictPop st.counts staffId) := by
  unfold get_public_join_code
  rw [hb]

lemma gpjc_some (staffId : Nat) (boards : List (Nat × String))
    (refetched : List (Nat × Nat)) (author : Nat) (st : JoinState) (b : Nat)
    (hb : alookup author st.assigned = some b) :
    get_public_join_code staffId boards refetched author st =
      if b ≠ 0 then
        if (alookup b (dictPop st.counts staffId)).getD 0 < 200 then
          match alookup b boards with
          | some code => .ok (some code, st)
          | none => .error ()
        else
          assignNewBoard boards author st
            (if (dictPop st.counts staffId).isEmpty then refetched
              else dictPop st.counts staffId)
      else
        assignNewBoard boards author st
          (if (dictPop st.counts staffId).isEmpty then refetched
            else dictPop st.counts staffId) := by
  unfold get_public_join_code
  rw [hb]

/-- C5.  When the counts cache lists at least one non-staff board and every
non-staff board's count is at or above the 200 cap, `get_public_join_code`
returns no join code and writes no assignment (the state is returned
unchanged).  The last hypothesis pins the implicit assumption that a prior
(truthy) assignment, if any, refers to one of those non-staff boards — a
user previously assigned to the staff board or to a board absent from the
counts cache would instead take the sticky path. -/
theorem c5_full_boards_no_code (staffId : Nat) (boards : List (Nat × String))
    (refetched : List (Nat × Nat)) (author : Nat) (st : JoinState)
    (hne : dictPop st.counts staffId ≠ [])
    (hfull : ∀ p ∈ dictPop st.counts staffId, 200 ≤ p.2)
    (hprev : ∀ b, alookup author st.assigned = some b → b ≠ 0 →
      b ∈ keys (dictPop st.counts staffId)) :
    get_public_join_code staffId boards refetched author st = .ok (none, st) := by
  have hempty : (dictPop st.counts staffId).isEmpty = false := by
    cases h : dictPop st.counts staffId with
    | nil => exact absurd h hne
    | cons x xs => rfl
  have hassign : assignNewBoard boards author st
      (if (dictPop st.counts staffId).isEmpty then refetched
        else dictPop st.counts staffId) = .ok (none, st) := by
    rw [hempty]
    simp only [Bool.false_eq_true, if_false]
    exact assignNewBoard_full boards author st _ hne hfull
  rcases hb : alookup author st.assigned with _ | b
  · rw [gpjc_none staffId boards refetched author st hb]
    exact hassign
  · rw [gpjc_some staffId boards refetched author st b hb]
    by_cases hb0 : b ≠ 0
    · rw [if_pos hb0]
      obtain ⟨v, hv⟩ := alookup_of_mem_keys (hprev b hb hb0)
      have hge : 200 ≤ v := hfull (b, v) (alookup_mem hv)
      rw [hv]
      simp only [Option.getD_some]
      rw [if_neg (by omega)]
      exact hassign
    · rw [if_neg hb0]
      exact hassign

theorem c5_full_boards_no_code_witness :
    get_public_join_code 99 [(1, "join-one")] [] 7 ⟨[], [(1, 250), (2, 300)]⟩
      = .ok (none, ⟨[], [(1, 250), (2, 300)]⟩) :=
  c5_full_boards_no_code 99 [(1, "join-one")] [] 7 ⟨[], [(1, 250), (2, 300)]⟩
    (by decide) (by decide) (fun b hb _ => Option.noConfusion hb)

/-- C6.  Sticky idempotent assignment: for a user with a previously
assigned (truthy) board whose current non-staff count is below the 200 cap
and which exists in the board config, `get_public_join_code` returns that
board's join code and leaves the state unchanged, so a second consecutive
call returns the same code again. -/
theorem c6_sticky_idempotent (staffId : Nat) (boards : List (Nat × String))
    (refetched : List (Nat × Nat)) (author : Nat) (st : JoinState) (b : Nat) (code : String)
    (hb : alookup author st.assigned = some b) (hb0 : b ≠ 0)
    (hcap : (alookup b (dictPop st.counts staffId)).getD 0 < 200)
    (hcode : alookup b boards = some code) :
    get_public_join_code staffId boards refetched author st = .ok (some code, st) ∧
    ∀ out st2, get_public_join_code staffId boards refetched author st = .ok (out, st2) →
      get_public_join_code staffId boards refetched author st2 = .ok (out, st2) := by
  have h1 : get_public_join_code staffId boards refetched author st = .ok (some code, st) := by
    rw [gpjc_some staffId boards refetched author st b hb, if_pos hb0, if_pos hcap, hcode]
  refine ⟨h1, ?_⟩
  intro out st2 h2
  rw [h1] at h2
  have h3 := Except.ok.inj h2
  have hout : out = some code := (Prod.mk.injEq _ _ _ _ ▸ h3.symm).1
  have hst : st2 = st := (Prod.mk.injEq _ _ _ _ ▸ h3.symm).2
  rw [hout, hst]
  exact h1

theorem c6_sticky_idempotent_witness :
    get_public_join_code 99 [(1, "join-one")] [] 7 ⟨[(7, 1)], [(1, 50)]⟩
      = .ok (some "join-one", ⟨[(7, 1)], [(1, 50)]⟩) :=
  (c6_sticky_idempotent 99 [(1, "join-one")] [] 7 ⟨[(7, 1)], [(1, 50)]⟩ 1 "join-one"
    rfl (by decide) (by decide) rfl).1

/-- C9, counterexample to the claim as stated.  A paste-service response
whose body is the JSON number `0` makes `_upload_leaderboard` raise an
uncaught `TypeError` at `"key" in resp_json` (modelled `.error ()`): it
neither returns a URL nor the empty string. -/
theorem c9_counterexample :
    upload_leaderboard (.ok (PyJson.pyint 0)) = .error () ∧
    ∀ s : String, upload_leaderboard (.ok (PyJson.pyint 0)) ≠ .ok s := by
  refine ⟨rfl, ?_⟩
  intro s h
  rw [show upload_leaderboard (.ok (PyJson.pyint 0)) = .error () from rfl] at h
  exact Except.noConfusion h

lemma any_beq_of_alookup {v : PyJson} :
    ∀ {fields : List (String × PyJson)}, alookup "key" fields = some v →
      (fields.any fun p => p.1 == "key") = true
  | [], h => Option.noConfusion h
  | p :: t, h => by
    rw [alookup] at h
    rw [List.any_cons]
    by_cases hp : p.1 = "key"
    · simp [hp]
    · rw [if_neg hp] at h
      simp [any_beq_of_alookup h]

lemma any_beq_false_of_none :
    ∀ {fields : List (String × PyJson)}, (∀ p ∈ fields, p.1 ≠ "key") →
      (fields.any fun p => p.1 == "key") = false
  | [], _ => rfl
  | p :: t, h => by
    rw [List.any_cons]
    have hp : p.1 ≠ "key" := h p (by simp)
    simp [hp, any_beq_false_of_none fun q hq => h q (List.mem_cons_of_mem _ hq)]

/-- C9, amended.  `_upload_leaderboard` returns the raw-content URL when
the response body is a JSON object with a `key` field, and returns the
empty string without raising when the body is non-JSON or a JSON object
without a `key` field; a JSON body of any non-object shape is not, in
general, handled (see the counterexample: a number raises `TypeError`). -/
theorem c9_upload_url_or_empty (body : Except Unit PyJson) :
    (body = .error () → upload_leaderboard body = .ok "") ∧
    (∀ fields v, body = .ok (.pydict fields) → alookup "key" fields = some v →
      upload_leaderboard body = .ok (RAW_PASTE_URL (pyStr v))) ∧
    (∀ fields, body = .ok (.pydict fields) → (∀ p ∈ fields, p.1 ≠ "key") →
      upload_leaderboard body = .ok "") := by
  refine ⟨?_, ?_, ?_⟩
  · intro hb
    rw [hb]
    rfl
  · intro fields v hb hv
    rw [hb]
    unfold upload_leaderboard
    have hany := any_beq_of_alookup hv
    simp only [pyContains, hany, pyGetItem, hv]
  · intro fields hb hnone
    rw [hb]
    unfold upload_leaderboard
    have hany := any_beq_false_of_none hnone
    simp only [pyContains, hany]

theorem c9_upload_url_or_empty_witness :
    upload_leaderboard (.ok (.pydict [("key", .pystr "abc123")]))
      = .ok (RAW_PASTE_URL (pyStr (.pystr "abc123"))) :=
  (c9_upload_url_or_empty (.ok (.pydict [("key", .pystr "abc123")]))).2.1
    [("key", .pystr "abc123")] (.pystr "abc123") rfl rfl

end AoC
